import Mathlib

/-!
Verification of the metadata embedding/extraction and auto-save subsystem of the
krita-ai-diffusion metadata-and-downloads plugin.

The development shallowly embeds the Python sources:

* `ai_diffusion/persistence.py` — record building (`_auto_save_images`,
  `_clean_metadata_value`), the image-type classifier, the 4000-limit
  truncation, and the bulk history saver;
* `ai_diffusion/krita_ai_metadata_downloads/auto_save.py` — `AutoSaveManager`
  (`save_job_images`, `save_all_history_images`);
* `ai_diffusion/ui/generation.py` — `MetadataWidget._load_external_image`, the
  PNG text-chunk metadata decoder.

Python's `json.dumps(..., ensure_ascii=False, separators=(',', ':'))` and
`json.loads` are modelled by an executable serializer `dumpV` and parser
`loads` over an explicit JSON value type.  Python floats are modelled as exact
decimals (`Json.dec m e` denotes `m / 10^(e+1)`, printed with `e+1` fractional
digits), matching the fact that `repr(float)` always prints a fractional part
and round-trips.  Byte strings from the PNG file are modelled as character
lists; the regex chunk scan of the source is abstracted by handing the decoder
the list of raw chunk payloads it finds, and `zlib.decompress` is an abstract
parameter of the decoding environment.  File-system effects of the auto-save
code are modelled by an explicit trace of created directories and written
files, with per-path failure oracles standing for the exceptions the source
catches.
-/

/-! ## Python string primitives -/

/-- ASCII whitespace recognized by the model of Python `str.strip`. -/
def isPyWs (c : Char) : Bool :=
  c = ' ' || c = '\t' || c = '\n' || c = '\r' || c = '\x0b' || c = '\x0c'

/-- Model of Python `str.strip()` on a character list (ASCII whitespace). -/
def pyStripChars (cs : List Char) : List Char :=
  ((cs.dropWhile isPyWs).reverse.dropWhile isPyWs).reverse

/-- Characters removed by `_clean_metadata_value` (persistence.py): control
characters 0x00-0x08, 0x0B, 0x0C, 0x0E-0x1F, 0x7F and the problematic code
points U+FFFD, U+FFFE, U+FFFF. -/
def isCleanedAway (c : Char) : Bool :=
  (c.toNat ≤ 0x08) || (c.toNat = 0x0b) || (c.toNat = 0x0c)
  || (0x0e ≤ c.toNat && c.toNat ≤ 0x1f) || (c.toNat = 0x7f)
  || (c.toNat = 0xfffd) || (c.toNat = 0xfffe) || (c.toNat = 0xffff)

/-- Model of `_clean_metadata_value` (persistence.py lines 473-487): drop the
parasitic characters, then strip surrounding whitespace. -/
def clean_metadata_value (s : String) : String :=
  String.mk (pyStripChars (s.data.filter (fun c => !isCleanedAway c)))

/-- Decimal digit character for a digit value below ten. -/
def decChar (d : Nat) : Char := Char.ofNat (48 + d)

/-- Decimal digits of a natural number, most significant first, with explicit
fuel so that the definition is structural and kernel-reducible. -/
def natCharsF : Nat → Nat → List Char
  | 0, _ => []
  | fuel + 1, n => if n < 10 then [decChar n] else natCharsF fuel (n / 10) ++ [decChar (n % 10)]

/-- Decimal digit characters of a natural number (model of Python `str(n)`). -/
def natChars (n : Nat) : List Char := natCharsF (n + 1) n

/-- Model of Python `str(n)` for a natural number. -/
def natStr (n : Nat) : String := String.mk (natChars n)

/-- Decimal characters of an integer: optional minus sign then digits. -/
def intChars (i : Int) : List Char :=
  if i < 0 then '-' :: natChars i.natAbs else natChars i.natAbs

/-- Numeric value of a run of decimal digit characters (the accumulator form
used by the number parser). -/
def digitsToNat (ds : List Char) : Nat :=
  ds.foldl (fun a c => a * 10 + (c.toNat - 48)) 0

/-- Zero-pad a digit string on the left to a minimum width (model of the
zero-padded fields of `strftime`). -/
def padZeros (w : Nat) (ds : List Char) : List Char :=
  List.replicate (w - ds.length) '0' ++ ds

/-- Lower-case hexadecimal digit character, as emitted by the JSON string
escaper for control characters. -/
def hexChar (d : Nat) : Char :=
  if d < 10 then Char.ofNat (48 + d) else Char.ofNat (87 + d)

/-- Numeric value of one hexadecimal digit character, if any. -/
def hexVal (c : Char) : Option Nat :=
  if 48 ≤ c.toNat ∧ c.toNat ≤ 57 then some (c.toNat - 48)
  else if 97 ≤ c.toNat ∧ c.toNat ≤ 102 then some (c.toNat - 87)
  else if 65 ≤ c.toNat ∧ c.toNat ≤ 70 then some (c.toNat - 55)
  else none

/-- Number of bytes of the UTF-8 encoding of one character. -/
def charUtf8Size (c : Char) : Nat :=
  if c.toNat < 0x80 then 1 else if c.toNat < 0x800 then 2
  else if c.toNat < 0x10000 then 3 else 4

/-- Number of bytes of the UTF-8 encoding of a character list. -/
def utf8Len (cs : List Char) : Nat := (cs.map charUtf8Size).sum

/-! ## JSON values

Mutual inductives instead of a nested `List` keep every recursion structural
and kernel-reducible.  `dec m e` is the model of a Python float: the exact
decimal `m / 10 ^ (e + 1)`, serialized with `e + 1` fractional digits, so every
serialized float has a fractional part, as `repr` of a Python float does. -/

mutual
inductive Json where
  | null
  | bool (b : Bool)
  | int (n : Int)
  | dec (m : Int) (e : Nat)
  | str (s : String)
  | arr (elems : JsonList)
  | obj (fields : JsonObj)
deriving DecidableEq
inductive JsonList where
  | nil
  | cons (hd : Json) (tl : JsonList)
deriving DecidableEq
inductive JsonObj where
  | nil
  | cons (k : String) (v : Json) (tl : JsonObj)
deriving DecidableEq
end

/-- JSON string escaping of one character, after Python `json.dumps` with
`ensure_ascii=False`: quote and backslash get a backslash, the five short
control escapes are used where they exist, all remaining control characters
become `\u00xy`, and everything else (including non-ASCII) passes through. -/
def escapeChar (c : Char) : List Char :=
  if c = '"' then ['\\', '"']
  else if c = '\\' then ['\\', '\\']
  else if c = '\n' then ['\\', 'n']
  else if c = '\t' then ['\\', 't']
  else if c = '\r' then ['\\', 'r']
  else if c = '\x08' then ['\\', 'b']
  else if c = '\x0c' then ['\\', 'f']
  else if c.toNat < 0x20 then
    ['\\', 'u', '0', '0', hexChar (c.toNat / 16), hexChar (c.toNat % 16)]
  else [c]

/-- Escaped body of a JSON string literal. -/
def escapeChars (cs : List Char) : List Char := cs.flatMap escapeChar

/-- Characters of a serialized JSON string literal, quotes included. -/
def dumpStr (s : String) : List Char := '"' :: (escapeChars s.data ++ ['"'])

/-- Characters of a serialized decimal (`m / 10 ^ (e+1)`) in the plain
`intpart.fracpart` form with exactly `e + 1` fractional digits. -/
def dumpDec (m : Int) (e : Nat) : List Char :=
  let ds := padZeros (e + 2) (natChars m.natAbs)
  let signed := ds.take (ds.length - (e + 1)) ++ '.' :: ds.drop (ds.length - (e + 1))
  if m < 0 then '-' :: signed else signed

mutual
/-- Serialization of a JSON value, modelling Python
`json.dumps(v, ensure_ascii=False, separators=(',', ':'))`. -/
def dumpV : Json → List Char
  | .null => "null".data
  | .bool true => "true".data
  | .bool false => "false".data
  | .int n => intChars n
  | .dec m e => dumpDec m e
  | .str s => dumpStr s
  | .arr xs => '[' :: dumpL xs
  | .obj kvs => '{' :: dumpM kvs
/-- Serialization of the elements of a JSON array, closing bracket included. -/
def dumpL : JsonList → List Char
  | .nil => [']']
  | .cons x .nil => dumpV x ++ [']']
  | .cons x (.cons y ys) => dumpV x ++ ',' :: dumpL (.cons y ys)
/-- Serialization of the members of a JSON object, closing brace included. -/
def dumpM : JsonObj → List Char
  | .nil => ['}']
  | .cons k v .nil => dumpStr k ++ ':' :: (dumpV v ++ ['}'])
  | .cons k v (.cons k2 v2 kvs) => dumpStr k ++ ':' :: (dumpV v ++ ',' :: dumpM (.cons k2 v2 kvs))
end

/-- Serialized JSON text of a value, as a string (model of `json.dumps`). -/
def dumps (j : Json) : String := String.mk (dumpV j)

/-! ## JSON parser

Model of Python `json.loads` restricted to the whitespace-free texts that the
compact serializer emits (the decoder strips surrounding whitespace before
parsing, and `dumps` with separators `(',', ':')` emits none inside).  The
parser is structural on an explicit fuel, with any fuel above the input length
sufficient. -/

/-- Parse the body of a JSON string literal after the opening quote, returning
the unescaped content and the input after the closing quote. -/
def parseStringBody : List Char → Option (List Char × List Char)
  | [] => none
  | c :: cs =>
    if c = '"' then some ([], cs)
    else if c = '\\' then
      match cs with
      | [] => none
      | e :: cs2 =>
        if e = '"' then (parseStringBody cs2).map (fun p => ('"' :: p.1, p.2))
        else if e = '\\' then (parseStringBody cs2).map (fun p => ('\\' :: p.1, p.2))
        else if e = '/' then (parseStringBody cs2).map (fun p => ('/' :: p.1, p.2))
        else if e = 'n' then (parseStringBody cs2).map (fun p => ('\n' :: p.1, p.2))
        else if e = 't' then (parseStringBody cs2).map (fun p => ('\t' :: p.1, p.2))
        else if e = 'r' then (parseStringBody cs2).map (fun p => ('\r' :: p.1, p.2))
        else if e = 'b' then (parseStringBody cs2).map (fun p => ('\x08' :: p.1, p.2))
        else if e = 'f' then (parseStringBody cs2).map (fun p => ('\x0c' :: p.1, p.2))
        else if e = 'u' then
          match cs2 with
          | h1 :: h2 :: h3 :: h4 :: cs3 =>
            match hexVal h1, hexVal h2, hexVal h3, hexVal h4 with
            | some a, some b, some c3, some d =>
              (parseStringBody cs3).map
                (fun p => (Char.ofNat (((a * 16 + b) * 16 + c3) * 16 + d) :: p.1, p.2))
            | _, _, _, _ => none
          | _ => none
        else none
    else (parseStringBody cs).map (fun p => (c :: p.1, p.2))

/-- Parse a JSON number: optional sign, digit run, optional fractional digit
run.  A fractional part yields a decimal (Python float), otherwise an integer. -/
def parseNumber (cs : List Char) : Option (Json × List Char) :=
  match cs with
  | [] => none
  | c0 :: rest0 =>
    let p := if c0 = '-' then (true, rest0) else (false, c0 :: rest0)
    let ds := p.2.takeWhile Char.isDigit
    let cs2 := p.2.dropWhile Char.isDigit
    if ds = [] then none
    else
      match cs2 with
      | [] => some (.int (if p.1 then -(digitsToNat ds : Int) else (digitsToNat ds : Int)), [])
      | d :: cs3 =>
        if d = '.' then
          let fs := cs3.takeWhile Char.isDigit
          let cs4 := cs3.dropWhile Char.isDigit
          if fs = [] then none
          else
            some (.dec (if p.1 then -(digitsToNat (ds ++ fs) : Int)
              else (digitsToNat (ds ++ fs) : Int)) (fs.length - 1), cs4)
        else
          some (.int (if p.1 then -(digitsToNat ds : Int) else (digitsToNat ds : Int)), d :: cs3)

mutual
/-- Parse one JSON value off the front of the input. -/
def parseValue : Nat → List Char → Option (Json × List Char)
  | 0, _ => none
  | _ + 1, [] => none
  | fuel + 1, c :: cs =>
    if c = 'n' then
      match cs with
      | 'u' :: 'l' :: 'l' :: r => some (.null, r)
      | _ => none
    else if c = 't' then
      match cs with
      | 'r' :: 'u' :: 'e' :: r => some (.bool true, r)
      | _ => none
    else if c = 'f' then
      match cs with
      | 'a' :: 'l' :: 's' :: 'e' :: r => some (.bool false, r)
      | _ => none
    else if c = '"' then
      (parseStringBody cs).map (fun p => (.str (String.mk p.1), p.2))
    else if c = '[' then
      match cs with
      | [] => none
      | d :: ds =>
        if d = ']' then some (.arr .nil, ds)
        else (parseElems fuel (d :: ds)).map (fun p => (.arr p.1, p.2))
    else if c = '{' then
      match cs with
      | [] => none
      | d :: ds =>
        if d = '}' then some (.obj .nil, ds)
        else (parseMembers fuel (d :: ds)).map (fun p => (.obj p.1, p.2))
    else parseNumber (c :: cs)
/-- Parse one or more comma-separated array elements up to the closing
bracket. -/
def parseElems : Nat → List Char → Option (JsonList × List Char)
  | 0, _ => none
  | fuel + 1, cs =>
    match parseValue fuel cs with
    | none => none
    | some (v, r) =>
      match r with
      | ',' :: r2 => (parseElems fuel r2).map (fun p => (.cons v p.1, p.2))
      | ']' :: r2 => some (.cons v .nil, r2)
      | _ => none
/-- Parse one or more comma-separated object members up to the closing brace. -/
def parseMembers : Nat → List Char → Option (JsonObj × List Char)
  | 0, _ => none
  | fuel + 1, cs =>
    match cs with
    | '"' :: r =>
      match parseStringBody r with
      | none => none
      | some (k, r1) =>
        match r1 with
        | ':' :: r2 =>
          match parseValue fuel r2 with
          | none => none
          | some (v, r3) =>
            match r3 with
            | ',' :: r4 => (parseMembers fuel r4).map (fun p => (.cons (String.mk k) v p.1, p.2))
            | '}' :: r4 => some (.cons (String.mk k) v .nil, r4)
            | _ => none
        | _ => none
    | _ => none
end

/-- Model of Python `json.loads`: parse a complete value, requiring the whole
input to be consumed. -/
def loads (s : String) : Option Json :=
  match parseValue (s.data.length + 1) s.data with
  | some (j, []) => some j
  | _ => none

/-! ## Python dict operations on JSON objects -/

/-- First-match association lookup in a JSON object (Python dict keys are
unique, so first match is the match). -/
def JsonObj.lookup : JsonObj → String → Option Json
  | .nil, _ => none
  | .cons k v t, key => if k = key then some v else t.lookup key

/-- Model of Python `dict.get(key, default)`. -/
def JsonObj.get (o : JsonObj) (key : String) (dflt : Json) : Json :=
  (o.lookup key).getD dflt

/-- Model of Python dict assignment `d[key] = v`: overwrite in place when the
key exists, append otherwise (insertion order preserved). -/
def JsonObj.set : JsonObj → String → Json → JsonObj
  | .nil, key, v => .cons key v .nil
  | .cons k w t, key, v => if k = key then .cons k v t else .cons k w (t.set key v)

/-- The keys of a JSON object, in order. -/
def JsonObj.keys : JsonObj → List String
  | .nil => []
  | .cons k _ t => k :: t.keys

/-- Model of Python `str.strip()`. -/
def pyStrip (s : String) : String := String.mk (pyStripChars s.data)

/-- Model of Python `str.lower()` (ASCII). -/
def pyLower (s : String) : String := String.mk (s.data.map Char.toLower)

/-- Model of Python `str.upper()` (ASCII). -/
def pyUpper (s : String) : String := String.mk (s.data.map Char.toUpper)

/-- First-match lookup with default in a string-valued mapping (model of
`dict.get(key, default)` for the job's metadata mapping). -/
def lookupStr : List (String × String) → String → String → String
  | [], _, dflt => dflt
  | (k, v) :: t, key, dflt => if k = key then v else lookupStr t key dflt

/-! ## Data model

Modelled from the spec: the `Job`, `JobParams`, `JobKind` and `JobState` types
come from `ai_diffusion/jobs.py`, which is not among the sources.  The fields
follow §6 of the spec (job history provider: id, kind, parameters with prompt,
seed, strength and a metadata mapping, timestamp, results) together with the
fields the present sources access: `state` (checked against
`JobState.finished` by `_auto_save_images_from_history` in persistence.py) and
`params.name` (the display name used for filenames).  `JobKind` additionally
has a member beyond the three the spec stores in records, because the present
code filters jobs with `job.kind in [diffusion, animation, upscaling]`, which
is meaningful only if further kinds exist. -/

/-- Exact-decimal model of a Python float: the value `m / 10 ^ (e + 1)`.
Serialized (`Json.dec`) with `e + 1` fractional digits, as the `repr` of a
float always shows at least one. -/
structure Dec where
  m : Int
  e : Nat
deriving DecidableEq

/-- The comparison `strength < 1.0` on the decimal model. -/
def Dec.ltOne (d : Dec) : Bool := d.m < (10 : Int) ^ (d.e + 1)

/-- Modelled from the spec: job kinds (§3), plus one extra member implied by
the kind filters in persistence.py and auto_save.py. -/
inductive JobKind where
  | diffusion
  | animation
  | upscaling
  | control_layer
deriving DecidableEq

/-- Python `Enum.name` for a job kind. -/
def JobKind.name : JobKind → String
  | .diffusion => "diffusion"
  | .animation => "animation"
  | .upscaling => "upscaling"
  | .control_layer => "control_layer"

/-- Modelled from the spec: job states; persistence.py compares against
`JobState.finished`, the remaining states are implied by a queue's lifecycle. -/
inductive JobState where
  | queued
  | executing
  | finished
  | cancelled
deriving DecidableEq

/-- A wall-clock datetime as used by `datetime.now()` and `job.timestamp`. -/
structure DateTime where
  year : Nat
  month : Nat
  day : Nat
  hour : Nat
  minute : Nat
  second : Nat
  micro : Nat
deriving DecidableEq

/-- Model of `strftime('%Y-%m-%d %H:%M:%S')` (the record timestamp format). -/
def fmtJobTimestamp (t : DateTime) : String :=
  String.mk (padZeros 4 (natChars t.year) ++ '-' :: padZeros 2 (natChars t.month)
    ++ '-' :: padZeros 2 (natChars t.day) ++ ' ' :: padZeros 2 (natChars t.hour)
    ++ ':' :: padZeros 2 (natChars t.minute) ++ ':' :: padZeros 2 (natChars t.second))

/-- Model of `datetime.now().strftime('%Y%m%d-%H%M%S-%f')[:-3]`: the zero-padded
compact timestamp with the last three characters (the sub-millisecond digits of
the six-digit microsecond field) sliced off. -/
def fmtAutoSaveTimestamp (t : DateTime) : String :=
  let l := padZeros 4 (natChars t.year) ++ padZeros 2 (natChars t.month)
    ++ padZeros 2 (natChars t.day)
    ++ '-' :: (padZeros 2 (natChars t.hour) ++ padZeros 2 (natChars t.minute)
      ++ padZeros 2 (natChars t.second))
    ++ '-' :: padZeros 6 (natChars t.micro)
  String.mk (l.take (l.length - 3))

/-- One entry of the `loras` list in the job's metadata mapping. -/
structure LoraEntry where
  name : String
  strength : Dec
  enabled : Bool
deriving DecidableEq

/-- Modelled from the spec: job parameters (§6).  The string-valued entries of
the metadata mapping are `metadata`; the `loras` entry, a list when present, is
carried separately with its structure. -/
structure JobParams where
  name : String
  prompt : String
  seed : Int
  strength : Dec
  metadata : List (String × String)
  loras : Option (List LoraEntry)
deriving DecidableEq

/-- A result image; its pixel content plays no role in any claim. -/
structure Image where
  payload : Nat
deriving DecidableEq

/-- Modelled from the spec: a job of the job history (§6). -/
structure Job where
  id : String
  kind : JobKind
  state : JobState
  params : JobParams
  timestamp : DateTime
  results : List Image
deriving DecidableEq

/-! ## Image-type classification and record building (persistence.py) -/

/-- The image-type classifier (persistence.py lines 287-293 and 520-526):
`Upscale` for upscaling jobs, else `Refine` when `strength < 1.0`, else
`ImgGenerate`.  The job parameters of the model always carry a strength (§6 of
the spec lists it), so the `hasattr` guard of the source is always true. -/
def get_image_type (job : Job) : String :=
  if job.kind = JobKind.upscaling then "Upscale"
  else if job.params.strength.ltOne then "Refine" else "ImgGenerate"

/-- JSON of the enabled entries of the `loras` list (persistence.py lines
338-348): each enabled entry becomes `{"name": cleaned, "strength": value}`. -/
def loraListJson : List LoraEntry → JsonList
  | [] => .nil
  | l :: ls =>
    if l.enabled then
      .cons (.obj (.cons "name" (.str (clean_metadata_value l.name))
        (.cons "strength" (.dec l.strength.m l.strength.e) .nil))) (loraListJson ls)
    else loraListJson ls

/-- The metadata keys consumed by the dedicated record fields and therefore
excluded from the extra-parameter loop (persistence.py line 354). -/
def reservedMetaKeys : List String :=
  ["prompt", "negative_prompt", "style", "checkpoint", "sampler", "loras"]

/-- The extra-parameter loop (persistence.py lines 353-359): every metadata
entry outside the reserved keys is cleaned, capped at 500 characters (ellipsis
after 497), and stored under the `param_`-prefixed key. -/
def addExtraParams : JsonObj → List (String × String) → JsonObj
  | o, [] => o
  | o, (k, v) :: rest =>
    if k ∈ reservedMetaKeys then addExtraParams o rest
    else
      let cv := clean_metadata_value v
      let cv2 := if 500 < cv.length then String.mk (cv.data.take 497) ++ "..." else cv
      addExtraParams (o.set ("param_" ++ k) (.str cv2)) rest

/-- The full metadata record built for image `i` of a job (persistence.py
lines 319-359): base fields, generation fields, the loras list when the
metadata mapping has one, then the extra parameters. -/
def build_all_metadata (job : Job) (i : Nat) (image_type : String) : JsonObj :=
  let o := JsonObj.nil
  let o := o.set "prompt" (.str (clean_metadata_value job.params.prompt))
  let o := o.set "negative_prompt"
    (.str (clean_metadata_value (lookupStr job.params.metadata "negative_prompt" "")))
  let o := o.set "seed" (.int job.params.seed)
  let o := o.set "strength" (.dec job.params.strength.m job.params.strength.e)
  let o := o.set "style" (.str (clean_metadata_value (lookupStr job.params.metadata "style" "")))
  let o := o.set "checkpoint"
    (.str (clean_metadata_value (lookupStr job.params.metadata "checkpoint" "")))
  let o := o.set "sampler"
    (.str (clean_metadata_value (lookupStr job.params.metadata "sampler" "")))
  let o := o.set "generation_type" (.str image_type)
  let o := o.set "job_kind" (.str job.kind.name)
  let o := o.set "timestamp" (.str (fmtJobTimestamp job.timestamp))
  let o := o.set "batch_index" (.int (i : Int))
  let o := o.set "total_images" (.int (job.results.length : Int))
  let o := match job.params.loras with
    | some ls => o.set "loras" (.arr (loraListJson ls))
    | none => o
  addExtraParams o job.params.metadata

/-- The essential-subset record substituted on overflow (persistence.py lines
368-375, auto_save.py lines 92-99). -/
def essential_metadata (all : JsonObj) : JsonObj :=
  .cons "prompt" (all.get "prompt" (.str ""))
    (.cons "seed" (all.get "seed" (.int 0))
      (.cons "strength" (all.get "strength" (.dec 10 0))
        (.cons "generation_type" (all.get "generation_type" (.str ""))
          (.cons "timestamp" (all.get "timestamp" (.str ""))
            (.cons "truncated" (.bool true) .nil)))))

/-- The encoded payload written under the `metadata` text-chunk keyword
(persistence.py lines 363-376, auto_save.py lines 87-100): compact JSON of the
record; when its length exceeds 4000 (a character count, `len` of a Python
`str`), the serialization of the essential subset replaces it. -/
def encode_metadata_json (all : JsonObj) : String :=
  let metadata_json := dumps (.obj all)
  if 4000 < metadata_json.length then dumps (.obj (essential_metadata all))
  else metadata_json

/-! ## PNG metadata decoding (generation.py, `_load_external_image`)

The source finds raw `tEXt`/`zTXt`/`iTXt` chunk payloads with a regex over the
file bytes and then processes each payload.  The model receives those payloads
directly, as character lists (valid-UTF-8 bytes; the `errors='ignore'` byte
decoding is the identity on them), and processes them exactly as the source
does.  `zlib.decompress` is an abstract parameter: `none` stands for the
`zlib.error` the source catches.  The JPEG/EXIF branch of the source (lines
1731-1780, active only for `.jpg`/`.jpeg` suffixes) is outside every claim and
outside this model, which covers `.png` inputs and inputs of other non-JPEG
suffixes (for which the source adds nothing after the basic properties). -/

/-- A decoded metadata value: every entry of the result mapping is either
display text or the parsed JSON record. -/
inductive MetaVal where
  | str (s : String)
  | json (j : Json)
deriving DecidableEq

/-- The result mapping of the decoder, a Python dict in insertion order. -/
abbrev Meta := List (String × MetaVal)

/-- Model of Python dict assignment on the decoder's result mapping. -/
def metaSet : Meta → String → MetaVal → Meta
  | [], k, v => [(k, v)]
  | (k1, v1) :: t, k, v => if k1 = k then (k1, v) :: t else (k1, v1) :: metaSet t k v

/-- First-match lookup in the decoder's result mapping. -/
def metaLookup : Meta → String → Option MetaVal
  | [], _ => none
  | (k1, v1) :: t, k => if k1 = k then some v1 else metaLookup t k

/-- Split a chunk payload at its first NUL byte (`chunk.find(b'\x00')`),
returning the keyword bytes and the remainder; `none` when there is no NUL, in
which case the source skips the chunk. -/
def splitFirstNull : List Char → Option (List Char × List Char)
  | [] => none
  | c :: cs =>
    if c.toNat = 0 then some ([], cs)
    else (splitFirstNull cs).map (fun p => (c :: p.1, p.2))

/-- The decoding environment: the abstract `zlib.decompress`, returning `none`
where the library would raise. -/
structure DecodeEnv where
  zlibDecompress : List Char → Option (List Char)

/-- The keyword aliases recognized as carrying the AI metadata JSON (besides
the legacy `metadata` keyword, which the source tests separately). -/
def aiKeywords (kw : String) : Bool :=
  kw = "AI_METADATA_JSON" || kw = "AI" || kw = "AI_META"

/-- Processing of one `tEXt` chunk payload (generation.py lines 1616-1650).
A successful JSON parse of a recognized keyword overwrites the
`AI_METADATA_JSON` entry; a failed parse leaves an error marker (alias
keywords) or the raw text (legacy keyword); other keywords are kept raw.  The
exception text interpolated into the marker by the source is elided. -/
def processTextChunk (m : Meta) (chunk : List Char) : Meta :=
  match splitFirstNull chunk with
  | none => m
  | some (kw, text) =>
    let keyword := String.mk kw
    let text_data := String.mk text
    if aiKeywords keyword then
      match loads (pyStrip text_data) with
      | some j => metaSet m "AI_METADATA_JSON" (.json j)
      | none => metaSet m ("PNG_tEXt_" ++ keyword) (.str "Error parsing JSON")
    else if keyword = "metadata" then
      match loads (pyStrip text_data) with
      | some j => metaSet m "AI_METADATA_JSON" (.json j)
      | none => metaSet m ("PNG_tEXt_" ++ keyword) (.str text_data)
    else metaSet m ("PNG_tEXt_" ++ keyword) (.str text_data)

/-- Processing of one `zTXt` chunk payload (generation.py lines 1655-1710).
The byte after the keyword's NUL is the compression method: method 0 is
decompressed and parsed, any other method leaves the unsupported-compression
marker.  A missing method byte, a decompression failure or a parse failure
leaves the branch's error marker; unrecognized keywords are marked as
compressed data. -/
def processZtxtChunk (env : DecodeEnv) (m : Meta) (chunk : List Char) : Meta :=
  match splitFirstNull chunk with
  | none => m
  | some (kw, post) =>
    let keyword := String.mk kw
    if aiKeywords keyword then
      match post with
      | [] => metaSet m ("PNG_zTXt_" ++ keyword) (.str "Error parsing JSON")
      | c :: data =>
        if c.toNat = 0 then
          match env.zlibDecompress data with
          | some txt =>
            match loads (pyStrip (String.mk txt)) with
            | some j => metaSet m "AI_METADATA_JSON" (.json j)
            | none => metaSet m ("PNG_zTXt_" ++ keyword) (.str "Error parsing JSON")
          | none => metaSet m ("PNG_zTXt_" ++ keyword) (.str "Error parsing JSON")
        else
          metaSet m ("PNG_zTXt_" ++ keyword)
            (.str ("Compression non supportée: " ++ natStr c.toNat))
    else if keyword = "metadata" then
      match post with
      | [] => metaSet m ("PNG_zTXt_" ++ keyword) (.str "Erreur décompression/parsing")
      | c :: data =>
        if c.toNat = 0 then
          match env.zlibDecompress data with
          | some txt =>
            match loads (pyStrip (String.mk txt)) with
            | some j => metaSet m "AI_METADATA_JSON" (.json j)
            | none => metaSet m ("PNG_zTXt_" ++ keyword) (.str "Erreur décompression/parsing")
          | none => metaSet m ("PNG_zTXt_" ++ keyword) (.str "Erreur décompression/parsing")
        else
          metaSet m ("PNG_zTXt_" ++ keyword)
            (.str ("Compression non supportée: " ++ natStr c.toNat))
    else metaSet m ("PNG_zTXt_" ++ keyword) (.str "Données compressées")

/-- Processing of one `iTXt` chunk payload (generation.py lines 1715-1726):
keyword up to the first NUL, text after the second NUL. -/
def processItxtChunk (m : Meta) (chunk : List Char) : Meta :=
  match splitFirstNull chunk with
  | none => m
  | some (kw, post) =>
    match splitFirstNull post with
    | none => m
    | some (_, text) => metaSet m ("PNG_iTXt_" ++ String.mk kw) (.str (String.mk text))

/-- The facts about the selected file gathered before chunk processing
(generation.py lines 1580-1602). -/
structure FileInfo where
  fileName : String
  parentPath : String
  sizeBytes : Nat
  width : Nat
  height : Nat
  suffix : String
  depth : Nat
  formatQt : String
deriving DecidableEq

/-- The chunk payloads the regex scan finds in the file's bytes, per chunk
type, in file order. -/
structure PngChunks where
  textChunks : List (List Char)
  ztxtChunks : List (List Char)
  itxtChunks : List (List Char)
deriving DecidableEq

/-- Model of the Python format `f"{bytes / 1024:.1f} KB"` (rounding to one
decimal; the source's half-even tie is modelled as half-up, a difference
invisible to every claim). -/
def fmtKB (n : Nat) : String :=
  let tenths := (n * 10 + 512) / 1024
  natStr (tenths / 10) ++ "." ++ natStr (tenths % 10) ++ " KB"

/-- The metadata extraction of `_load_external_image` (generation.py lines
1579-1730): the basic file properties, then — for a `.png` suffix — the three
chunk scans in source order. -/
def extract_image_metadata (env : DecodeEnv) (info : FileInfo) (png : PngChunks) : Meta :=
  let m : Meta := []
  let m := metaSet m "Nom du fichier" (.str info.fileName)
  let m := metaSet m "Chemin" (.str info.parentPath)
  let m := metaSet m "Taille du fichier" (.str (fmtKB info.sizeBytes))
  let m := metaSet m "Dimensions"
    (.str (natStr info.width ++ " x " ++ natStr info.height ++ " pixels"))
  let m := metaSet m "Format"
    (.str (if info.suffix ≠ "" then String.mk ((pyUpper info.suffix).data.drop 1) else "Inconnu"))
  let m := metaSet m "Profondeur de couleur" (.str (natStr info.depth ++ " bits"))
  let m := metaSet m "Format Qt" (.str info.formatQt)
  if pyLower info.suffix = ".png" then
    let m := png.textChunks.foldl processTextChunk m
    let m := png.ztxtChunks.foldl (processZtxtChunk env) m
    png.itxtChunks.foldl processItxtChunk m
  else m

/-- The canonical-record candidate a `tEXt` chunk contributes: its parsed JSON
when its keyword is recognized and the parse succeeds. -/
def textChunkCandidate (chunk : List Char) : Option Json :=
  match splitFirstNull chunk with
  | none => none
  | some (kw, text) =>
    let keyword := String.mk kw
    if aiKeywords keyword || keyword = "metadata" then loads (pyStrip (String.mk text))
    else none

/-- The canonical-record candidate a `zTXt` chunk contributes: its decompressed
and parsed JSON when its keyword is recognized, its method byte is zero, and
both steps succeed. -/
def ztxtChunkCandidate (env : DecodeEnv) (chunk : List Char) : Option Json :=
  match splitFirstNull chunk with
  | none => none
  | some (kw, post) =>
    let keyword := String.mk kw
    if aiKeywords keyword || keyword = "metadata" then
      match post with
      | [] => none
      | c :: data =>
        if c.toNat = 0 then
          match env.zlibDecompress data with
          | some txt => loads (pyStrip (String.mk txt))
          | none => none
        else none
    else none

/-- The last `some` of a candidate list (the survivor of repeated dict
overwrites). -/
def lastSome (l : List (Option Json)) : Option Json :=
  l.foldl (fun a c => match c with | some j => some j | none => a) none

/-- The candidate that actually ends up as the canonical record: the last
successfully parsed one in scan order, all `tEXt` chunks before all `zTXt`
chunks. -/
def canonicalRecord (env : DecodeEnv) (png : PngChunks) : Option Json :=
  lastSome (png.textChunks.map textChunkCandidate
    ++ png.ztxtChunks.map (ztxtChunkCandidate env))

/-- What the decoder's regex scan actually captures for the `tEXt` chunk the
save paths embed (generation.py line 1614): the lazy group
`tEXt(.*?)(?=tEXt|IDAT|IEND)` runs from the end of the chunk-type marker to
the next marker, so beyond the chunk data — the `metadata` keyword, a NUL and
the encoded JSON text — it also takes the bytes standing between the data and
the next marker: this chunk's 4-byte CRC followed by the next chunk's 4-byte
length field (and more when the next chunk's type is none of the three
markers).  Those trailing bytes are the abstract `junk`. -/
def metadataChunkCapture (all : JsonObj) (junk : List Char) : List Char :=
  "metadata".data ++ '\x00' :: ((encode_metadata_json all).data ++ junk)

/-! ## Auto-save (auto_save.py, `AutoSaveManager`)

File-system effects are explicit: an environment of per-path failure oracles
(`mkdirFails` standing for the exceptions `Path.mkdir` may raise, `saveFails`
for the exceptions of `img.save` and of the per-image body around it) and the
per-image `datetime.now()` clock.  A call returns the Python result — a count,
or the exception a failed `mkdir` propagates — together with the trace of
directories created and files written.  Paths are segment lists. -/

/-- The ambient effects of an auto-save call. -/
structure SaveEnv where
  mkdirFails : List String → Bool
  saveFails : List String → Bool
  now : Nat → DateTime

/-- Directories created and files written by a call, in order. -/
structure Trace where
  dirs : List (List String)
  files : List (List String)
deriving DecidableEq

/-- The settings consulted by the auto-save code. -/
structure SaveSettings where
  auto_save_generated : Bool
  auto_save_folder : List String
deriving DecidableEq

/-- Model of `Path(filename).stem`: final path component, last suffix removed. -/
def path_stem (s : String) : String :=
  let base := (s.splitOn "/").getLastD s
  match base.splitOn "." with
  | [] => base
  | [p] => p
  | ps => String.intercalate "." ps.dropLast

/-- The filename prompt prefix (auto_save.py lines 70-71): the display name
with spaces replaced by underscores, sliced to 50 characters. -/
def sanitize_prompt (s : String) : String :=
  String.mk ((s.data.map (fun c => if c = ' ' then '_' else c)).take 50)

/-- The destination filename of image `i` (auto_save.py line 77). -/
def auto_save_filename (prompt timestamp image_type : String) (i : Nat) : String :=
  prompt ++ "_" ++ timestamp ++ "_" ++ image_type ++ "_" ++ natStr i ++ ".png"

/-- The destination path of image `i` of a job, as the loop computes it. -/
def auto_save_path (env : SaveEnv) (cfg : SaveSettings) (docFilename : String)
    (job : Job) (i : Nat) : List String :=
  let doc_name := if docFilename ≠ "" then path_stem docFilename else "unsaved_document"
  let image_type := get_image_type job
  cfg.auto_save_folder ++ [doc_name, image_type,
    auto_save_filename (sanitize_prompt job.params.name) (fmtAutoSaveTimestamp (env.now i))
      image_type i]

/-- The per-image loop of `save_job_images` (auto_save.py lines 66-112): each
image's save is attempted under its own try, a failure is logged and skipped,
a success counts and leaves its file. -/
def saveImagesLoop (env : SaveEnv) (prompt image_type : String)
    (type_folder : List String) : List Image → Nat → Nat × List (List String)
  | [], _ => (0, [])
  | _ :: rest, i =>
    let timestamp := fmtAutoSaveTimestamp (env.now i)
    let filename := auto_save_filename prompt timestamp image_type i
    let path := type_folder ++ [filename]
    let r := saveImagesLoop env prompt image_type type_folder rest (i + 1)
    if env.saveFails path then r else (r.1 + 1, path :: r.2)

/-- Model of `AutoSaveManager.save_job_images` (auto_save.py lines 27-113):
the two early guards, the three `mkdir` calls (whose failures propagate as the
`Except.error`), then the per-image loop.  The metadata preparation inside the
loop is total in the model; its content is `encode_metadata_json` of
`build_all_metadata`, embedded separately. -/
def save_job_images (env : SaveEnv) (cfg : SaveSettings) (docFilename : String)
    (job : Job) : Except String Nat × Trace :=
  if !cfg.auto_save_generated then (.ok 0, ⟨[], []⟩)
  else if job.results = [] then (.ok 0, ⟨[], []⟩)
  else
    let base := cfg.auto_save_folder
    if env.mkdirFails base then (.error "mkdir failed", ⟨[], []⟩)
    else
      let doc_name := if docFilename ≠ "" then path_stem docFilename else "unsaved_document"
      let doc_folder := base ++ [doc_name]
      if env.mkdirFails doc_folder then (.error "mkdir failed", ⟨[base], []⟩)
      else
        let image_type := get_image_type job
        let type_folder := doc_folder ++ [image_type]
        if env.mkdirFails type_folder then (.error "mkdir failed", ⟨[base, doc_folder], []⟩)
        else
          let prompt := sanitize_prompt job.params.name
          let r := saveImagesLoop env prompt image_type type_folder job.results 0
          (.ok r.1, ⟨[base, doc_folder, type_folder], r.2⟩)

/-- The job kinds admitted by the history filter (auto_save.py line 146). -/
def historyKinds : List JobKind := [.diffusion, .animation, .upscaling]

/-- The per-job loop of `save_all_history_images` (auto_save.py lines 145-152):
jobs with results and an admitted kind are saved under a per-job try, an
exception is logged and skipped, counts are summed; the trace accumulates in
order. -/
def historyLoop (env : SaveEnv) (cfg : SaveSettings) (docFilename : String) :
    List Job → Nat × Trace
  | [] => (0, ⟨[], []⟩)
  | job :: rest =>
    let r := historyLoop env cfg docFilename rest
    if job.results ≠ [] ∧ job.kind ∈ historyKinds then
      let s := save_job_images env cfg docFilename job
      let add := match s.1 with | .ok n => n | .error _ => 0
      (add + r.1, ⟨s.2.dirs ++ r.2.dirs, s.2.files ++ r.2.files⟩)
    else r

/-- Model of `AutoSaveManager.save_all_history_images` (auto_save.py lines
119-155): the setting guard, the base and document `mkdir` calls (failures
propagate), then the per-job loop over the whole history. -/
def save_all_history_images (env : SaveEnv) (cfg : SaveSettings)
    (docFilename : String) (entries : List Job) : Except String Nat × Trace :=
  if !cfg.auto_save_generated then (.ok 0, ⟨[], []⟩)
  else
    let base := cfg.auto_save_folder
    if env.mkdirFails base then (.error "mkdir failed", ⟨[], []⟩)
    else
      let doc_name := if docFilename ≠ "" then path_stem docFilename else "unsaved_document"
      let doc_folder := base ++ [doc_name]
      if env.mkdirFails doc_folder then (.error "mkdir failed", ⟨[base], []⟩)
      else
        let r := historyLoop env cfg docFilename entries
        (.ok r.1, ⟨base :: doc_folder :: r.2.dirs, r.2.files⟩)

/-- A valid clock reading: the field bounds under which the auto-save
timestamp has its fixed 19-character shape. -/
def DateTime.valid (t : DateTime) : Prop :=
  t.year ≤ 9999 ∧ t.month < 100 ∧ t.day < 100 ∧ t.hour < 100 ∧ t.minute < 100
    ∧ t.second < 100 ∧ t.micro < 1000000

/-- A remainder that cannot extend a serialized number: empty, or starting
with a character that is neither a digit nor a decimal point. -/
def numDelim : List Char → Bool
  | [] => true
  | c :: _ => !(c.isDigit || c = '.')

/-- A concrete three-image job: diffusion at full strength, used by the
concrete instantiations below. -/
def jobW3 : Job :=
  { id := "j", kind := .diffusion, state := .finished,
    params := { name := "img name", prompt := "p", seed := 0, strength := ⟨10, 0⟩,
                metadata := [], loras := none },
    timestamp := ⟨2024, 1, 1, 0, 0, 0, 0⟩,
    results := [⟨0⟩, ⟨1⟩, ⟨2⟩] }

/-- A save environment whose only failure is the save of the second image
of `jobW3`: directories always succeed, the clock is frozen. -/
def envFailMid : SaveEnv :=
  { mkdirFails := fun _ => false,
    saveFails := fun p =>
      p == ["base", "unsaved_document", "ImgGenerate",
            "img_name_20240102-030405-000_ImgGenerate_1.png"],
    now := fun _ => ⟨2024, 1, 2, 3, 4, 5, 6⟩ }

/-- The settings fixture: auto-save enabled, base folder `base`. -/
def cfgW : SaveSettings := ⟨true, ["base"]⟩

/-- A job whose prompt alone is 4100 characters: its full record overflows
the 4000 limit and so does the essential subset rebuilt from it. -/
def jobLongPrompt : Job :=
  { id := "j", kind := .diffusion, state := .finished,
    params := { name := "n", prompt := String.mk (List.replicate 4100 'a'), seed := 0,
                strength := ⟨10, 0⟩, metadata := [], loras := none },
    timestamp := ⟨2024, 1, 1, 0, 0, 0, 0⟩,
    results := [⟨0⟩] }

/-- A save environment in which nothing fails and the clock is frozen. -/
def envNoFail : SaveEnv :=
  { mkdirFails := fun _ => false, saveFails := fun _ => false,
    now := fun _ => ⟨2024, 1, 2, 3, 4, 5, 6⟩ }

/-- A job still in the queue (state not `finished`) that nevertheless carries
one result image. -/
def jobQueued : Job :=
  { id := "q", kind := .diffusion, state := .queued,
    params := { name := "n", prompt := "p", seed := 0, strength := ⟨10, 0⟩,
                metadata := [], loras := none },
    timestamp := ⟨2024, 1, 1, 0, 0, 0, 0⟩,
    results := [⟨0⟩] }

/-- A save environment that fails exactly the `Upscale` type-folder `mkdir`:
the per-job save of an upscaling job raises while everything else succeeds. -/
def envFailUpscale : SaveEnv :=
  { mkdirFails := fun p => p == ["base", "unsaved_document", "Upscale"],
    saveFails := fun _ => false,
    now := fun _ => ⟨2024, 1, 2, 3, 4, 5, 6⟩ }

/-- An upscaling job with two result images; its save errors under
`envFailUpscale`. -/
def jobUpFail : Job :=
  { id := "u", kind := .upscaling, state := .finished,
    params := { name := "n", prompt := "p", seed := 0, strength := ⟨10, 0⟩,
                metadata := [], loras := none },
    timestamp := ⟨2024, 1, 1, 0, 0, 0, 0⟩,
    results := [⟨0⟩, ⟨1⟩] }

/-! ## Lemmas: decimal digit strings -/

theorem natCharsF_irrel (n : Nat) : ∀ f g, n < f → n < g → natCharsF f n = natCharsF g n := by
  induction n using Nat.strong_induction_on with
  | _ n ih =>
    intro f g hf hg
    match f, g with
    | f + 1, g + 1 =>
      simp only [natCharsF]
      by_cases h : n < 10
      · simp [h]
      · have hd : n / 10 < n := Nat.div_lt_self (by omega) (by omega)
        simp only [if_neg h]
        rw [ih (n / 10) hd f g (by omega) (by omega)]

theorem natChars_unfold (n : Nat) :
    natChars n = if n < 10 then [decChar n] else natChars (n / 10) ++ [decChar (n % 10)] := by
  by_cases h : n < 10
  · simp [natChars, natCharsF, h]
  · have hd : n / 10 < n := Nat.div_lt_self (by omega) (by omega)
    have step : natCharsF (n + 1) n
        = if n < 10 then [decChar n] else natCharsF n (n / 10) ++ [decChar (n % 10)] := rfl
    simp only [natChars, step, if_neg h]
    rw [natCharsF_irrel (n / 10) n (n / 10 + 1) (by omega) (by omega)]

theorem decChar_toNat (d : Nat) (h : d < 100) : (decChar d).toNat = 48 + d := by
  have hv : (48 + d).isValidChar := Or.inl (by omega)
  simp [decChar, Char.ofNat, hv, Char.toNat, Char.ofNatAux, UInt32.toNat, BitVec.toNat_ofNatLt]

theorem decChar_isDigit (d : Nat) (h : d < 10) : (decChar d).isDigit = true := by
  interval_cases d <;> decide

theorem natChars_ne_nil (n : Nat) : natChars n ≠ [] := by
  rw [natChars_unfold]
  by_cases h : n < 10 <;> simp [h]

theorem natChars_digits (n : Nat) : ∀ c ∈ natChars n, c.isDigit = true := by
  induction n using Nat.strong_induction_on with
  | _ n ih =>
    rw [natChars_unfold]
    by_cases h : n < 10
    · simp only [if_pos h, List.mem_singleton]
      rintro c rfl
      exact decChar_isDigit n h
    · simp only [if_neg h, List.mem_append, List.mem_singleton]
      rintro c (hc | rfl)
      · exact ih (n / 10) (Nat.div_lt_self (by omega) (by omega)) c hc
      · exact decChar_isDigit (n % 10) (Nat.mod_lt _ (by omega))

theorem foldl_digitsToNat_natChars (n : Nat) : ∀ a : Nat,
    (natChars n).foldl (fun a c => a * 10 + (c.toNat - 48)) a
      = a * 10 ^ (natChars n).length + n := by
  induction n using Nat.strong_induction_on with
  | _ n ih =>
    intro a
    rw [natChars_unfold]
    by_cases h : n < 10
    · simp only [if_pos h, List.foldl_cons, List.foldl_nil, List.length_cons,
        List.length_nil, pow_one, decChar_toNat n (by omega)]
      omega
    · have hd : n / 10 < n := Nat.div_lt_self (by omega) (by omega)
      simp only [if_neg h, List.foldl_append, List.foldl_cons, List.foldl_nil,
        List.length_append, List.length_cons, List.length_nil]
      rw [ih (n / 10) hd a, decChar_toNat (n % 10) (by omega)]
      have hp : a * 10 ^ ((natChars (n / 10)).length + (0 + 1))
          = a * 10 ^ (natChars (n / 10)).length * 10 := by ring
      rw [hp]
      omega

theorem digitsToNat_natChars (n : Nat) : digitsToNat (natChars n) = n := by
  simpa using foldl_digitsToNat_natChars n 0

theorem foldl_digitsToNat_zeros (k : Nat) :
    (List.replicate k '0').foldl (fun a c => a * 10 + (c.toNat - 48)) 0 = 0 := by
  induction k with
  | zero => rfl
  | succ k ih => simpa [List.replicate_succ] using ih

theorem digitsToNat_padZeros (w n : Nat) : digitsToNat (padZeros w (natChars n)) = n := by
  simp only [digitsToNat, padZeros, List.foldl_append, foldl_digitsToNat_zeros]
  simpa using foldl_digitsToNat_natChars n 0

theorem natChars_inj {m n : Nat} (h : natChars m = natChars n) : m = n := by
  have := digitsToNat_natChars m
  rw [h, digitsToNat_natChars] at this
  omega

theorem natStr_inj {m n : Nat} (h : natStr m = natStr n) : m = n := by
  apply natChars_inj
  simpa [natStr] using congrArg String.data h

theorem natChars_length_le : ∀ k n, 1 ≤ k → n < 10 ^ k → (natChars n).length ≤ k := by
  intro k
  induction k with
  | zero => intro n h0 _; omega
  | succ k ih =>
    intro n _ h
    rw [natChars_unfold]
    by_cases h10 : n < 10
    · simp only [if_pos h10, List.length_cons, List.length_nil]
      omega
    · rcases Nat.eq_zero_or_pos k with rfl | hk
      · rw [pow_one] at h; omega
      · have hdiv : n / 10 < 10 ^ k := by rw [pow_succ] at h; omega
        have := ih (n / 10) hk hdiv
        simp only [if_neg h10, List.length_append, List.length_cons, List.length_nil]
        omega

theorem padZeros_length {w : Nat} {ds : List Char} (h : ds.length ≤ w) :
    (padZeros w ds).length = w := by
  simp [padZeros]
  omega

theorem padZeros_digits (w n : Nat) : ∀ c ∈ padZeros w (natChars n), c.isDigit = true := by
  simp only [padZeros, List.mem_append, List.mem_replicate]
  rintro c (⟨-, rfl⟩ | hc)
  · decide
  · exact natChars_digits n c hc

/-! ## Lemmas: number parsing inverts number serialization -/

theorem numDelim_head {c : Char} {t : List Char} (h : numDelim (c :: t) = true) :
    c.isDigit = false ∧ c ≠ '.' := by
  simp only [numDelim, Bool.not_eq_true', Bool.or_eq_false_iff, decide_eq_false_iff_not] at h
  exact ⟨h.1, h.2⟩

theorem takeWhile_digits_append {ds : List Char} (hds : ∀ c ∈ ds, c.isDigit = true) :
    ∀ {r : List Char}, numDelim r = true →
      (ds ++ r).takeWhile Char.isDigit = ds ∧ (ds ++ r).dropWhile Char.isDigit = r := by
  induction ds with
  | nil =>
    intro r hr
    cases r with
    | nil => exact ⟨rfl, rfl⟩
    | cons c t =>
      have hc := (numDelim_head hr).1
      simp [List.takeWhile, List.dropWhile, hc]
  | cons c t ih =>
    intro r hr
    have hc : c.isDigit = true := hds c (by simp)
    have ht := ih (fun x hx => hds x (by simp [hx])) hr
    simp [List.takeWhile, List.dropWhile, hc, ht.1, ht.2]

theorem isDigit_toNat {c : Char} (h : c.isDigit = true) : 48 ≤ c.toNat ∧ c.toNat ≤ 57 := by
  simp only [Char.isDigit, Bool.and_eq_true, decide_eq_true_eq] at h
  obtain ⟨h1, h2⟩ := h
  constructor
  · exact h1
  · exact h2

theorem digit_ne_chars {c : Char} (h : c.isDigit = true) :
    c ≠ '-' ∧ c ≠ '.' ∧ c ≠ 'n' ∧ c ≠ 't' ∧ c ≠ 'f' ∧ c ≠ '"' ∧ c ≠ '[' ∧ c ≠ '{'
      ∧ c ≠ ']' ∧ c ≠ '}' := by
  have := isDigit_toNat h
  refine ⟨?_, ?_, ?_, ?_, ?_, ?_, ?_, ?_, ?_, ?_⟩ <;>
    (rintro rfl; revert this; decide)

theorem natChars_head (n : Nat) :
    ∃ c t, natChars n = c :: t ∧ c.isDigit = true := by
  match h : natChars n with
  | [] => exact absurd h (natChars_ne_nil n)
  | c :: t =>
    refine ⟨c, t, rfl, natChars_digits n c ?_⟩
    rw [h]
    simp

theorem parseNumber_natChars (n : Nat) {rest : List Char} (hr : numDelim rest = true) :
    parseNumber (natChars n ++ rest) = some (.int (n : Int), rest) := by
  obtain ⟨c, t, hct, hc⟩ := natChars_head n
  have hminus : c ≠ '-' := (digit_ne_chars hc).1
  have htw := takeWhile_digits_append (natChars_digits n) hr
  rw [hct] at htw
  simp only [List.cons_append] at htw
  rw [hct, List.cons_append]
  simp only [parseNumber, if_neg hminus, List.cons_append]
  rw [htw.1, htw.2]
  have hne : c :: t ≠ [] := by simp
  rw [if_neg hne]
  have hval : digitsToNat (c :: t) = n := by rw [← hct]; exact digitsToNat_natChars n
  cases rest with
  | nil => simp [hval]
  | cons d t2 =>
    obtain ⟨hd, hdot⟩ := numDelim_head hr
    simp [if_neg hdot, hval]

theorem parseNumber_intChars (i : Int) {rest : List Char} (hr : numDelim rest = true) :
    parseNumber (intChars i ++ rest) = some (.int i, rest) := by
  by_cases hneg : i < 0
  · simp only [intChars, if_pos hneg, List.cons_append]
    obtain ⟨c, t, hct, hc⟩ := natChars_head i.natAbs
    have htw := takeWhile_digits_append (natChars_digits i.natAbs) hr
    simp only [parseNumber, eq_self_iff_true, if_true]
    rw [htw.1, htw.2]
    have hne : natChars i.natAbs ≠ [] := natChars_ne_nil _
    rw [if_neg hne]
    have hval : digitsToNat (natChars i.natAbs) = i.natAbs := digitsToNat_natChars _
    have hi : -(i.natAbs : Int) = i := by omega
    cases rest with
    | nil =>
      simp [hval]
      rw [abs_of_neg hneg]
      ring
    | cons d t2 =>
      obtain ⟨hd, hdot⟩ := numDelim_head hr
      simp [if_neg hdot, hval]
      rw [abs_of_neg hneg]
      ring
  · simp only [intChars, if_neg hneg]
    have hi : ((i.natAbs : Nat) : Int) = i := by omega
    rw [parseNumber_natChars i.natAbs hr, hi]

theorem dumpDec_parts (m : Int) (e : Nat) :
    ∃ ip fp, dumpDec m e = (if m < 0 then '-' :: (ip ++ '.' :: fp) else ip ++ '.' :: fp)
      ∧ (∀ c ∈ ip, c.isDigit = true) ∧ (∀ c ∈ fp, c.isDigit = true)
      ∧ ip ≠ [] ∧ fp.length = e + 1 ∧ digitsToNat (ip ++ fp) = m.natAbs := by
  have hdig := padZeros_digits (e + 2) m.natAbs
  have hlen : e + 2 ≤ (padZeros (e + 2) (natChars m.natAbs)).length := by
    simp [padZeros]
    omega
  refine ⟨(padZeros (e + 2) (natChars m.natAbs)).take
      ((padZeros (e + 2) (natChars m.natAbs)).length - (e + 1)),
    (padZeros (e + 2) (natChars m.natAbs)).drop
      ((padZeros (e + 2) (natChars m.natAbs)).length - (e + 1)), ?_, ?_, ?_, ?_, ?_, ?_⟩
  · simp only [dumpDec]
  · intro c hc
    exact hdig c (List.mem_of_mem_take hc)
  · intro c hc
    exact hdig c (List.mem_of_mem_drop hc)
  · have : ((padZeros (e + 2) (natChars m.natAbs)).take
        ((padZeros (e + 2) (natChars m.natAbs)).length - (e + 1))).length
        = (padZeros (e + 2) (natChars m.natAbs)).length - (e + 1) := by
      rw [List.length_take]
      omega
    intro hnil
    rw [hnil] at this
    simp at this
    omega
  · rw [List.length_drop]
    omega
  · rw [List.take_append_drop]
    exact digitsToNat_padZeros (e + 2) m.natAbs

theorem takeWhile_digits_append_head {ds : List Char} (hds : ∀ c ∈ ds, c.isDigit = true) :
    ∀ {r : List Char}, (∀ c t, r = c :: t → c.isDigit = false) →
      (ds ++ r).takeWhile Char.isDigit = ds ∧ (ds ++ r).dropWhile Char.isDigit = r := by
  induction ds with
  | nil =>
    intro r hr
    cases r with
    | nil => exact ⟨rfl, rfl⟩
    | cons c t =>
      have hc := hr c t rfl
      simp [List.takeWhile, List.dropWhile, hc]
  | cons c t ih =>
    intro r hr
    have hc : c.isDigit = true := hds c (by simp)
    have ht := ih (fun x hx => hds x (by simp [hx])) hr
    simp [List.takeWhile, List.dropWhile, hc, ht.1, ht.2]

theorem parseNumber_dumpDec (m : Int) (e : Nat) {rest : List Char} (hr : numDelim rest = true) :
    parseNumber (dumpDec m e ++ rest) = some (.dec m e, rest) := by
  obtain ⟨ip, fp, heq, hip, hfp, hipne, hfplen, hval⟩ := dumpDec_parts m e
  obtain ⟨c, t, hct⟩ : ∃ c t, ip = c :: t := by
    cases ip with
    | nil => exact absurd rfl hipne
    | cons c t => exact ⟨c, t, rfl⟩
  have hc : c.isDigit = true := hip c (by rw [hct]; simp)
  have hfpne : fp ≠ [] := by
    intro h
    rw [h] at hfplen
    simp at hfplen
  have hrest : ∀ c2 t2, rest = c2 :: t2 → c2.isDigit = false := by
    intro c2 t2 h2
    rw [h2] at hr
    exact (numDelim_head hr).1
  have htw1 := @takeWhile_digits_append_head _ hip ('.' :: (fp ++ rest)) (by
      intro c2 t2 h2
      cases h2
      decide)
  have htw2 := @takeWhile_digits_append_head _ hfp rest hrest
  have hfs : fp.length - 1 = e := by omega
  rw [hct] at htw1 hval
  simp only [List.cons_append] at htw1 hval
  by_cases hm : m < 0
  · rw [heq, if_pos hm, hct]
    have harr : ('-' :: (c :: t ++ '.' :: fp)) ++ rest
        = '-' :: (c :: (t ++ ('.' :: (fp ++ rest)))) := by simp
    rw [harr]
    simp only [parseNumber, eq_self_iff_true, if_true]
    rw [htw1.1, htw1.2]
    rw [if_neg (by simp)]
    simp only [if_pos (rfl : ('.' : Char) = '.')]
    rw [htw2.1, htw2.2]
    rw [if_neg hfpne]
    have hi : -(m.natAbs : Int) = m := by omega
    simp [hval, hfs]
    rw [abs_of_neg hm]
    ring
  · rw [heq, if_neg hm, hct]
    have harr : (c :: t ++ '.' :: fp) ++ rest = c :: (t ++ ('.' :: (fp ++ rest))) := by simp
    rw [harr]
    have hminus : c ≠ '-' := (digit_ne_chars hc).1
    simp only [parseNumber, if_neg hminus]
    rw [htw1.1, htw1.2]
    rw [if_neg (by simp)]
    simp only [if_pos (rfl : ('.' : Char) = '.')]
    rw [htw2.1, htw2.2]
    rw [if_neg hfpne]
    have hi : ((m.natAbs : Nat) : Int) = m := by omega
    simp [hval, hfs]
    omega

/-! ## Lemmas: string parsing inverts string escaping -/

theorem hexVal_hexChar (d : Nat) (h : d < 16) : hexVal (hexChar d) = some d := by
  interval_cases d <;> decide

theorem parseStringBody_unicode {h1 h2 h3 h4 : Char} {v1 v2 v3 v4 : Nat}
    (e1 : hexVal h1 = some v1) (e2 : hexVal h2 = some v2)
    (e3 : hexVal h3 = some v3) (e4 : hexVal h4 = some v4) (rest : List Char) :
    parseStringBody ('\\' :: 'u' :: h1 :: h2 :: h3 :: h4 :: rest)
      = (parseStringBody rest).map
          (fun p => (Char.ofNat (((v1 * 16 + v2) * 16 + v3) * 16 + v4) :: p.1, p.2)) := by
  have key : parseStringBody ('\\' :: 'u' :: h1 :: h2 :: h3 :: h4 :: rest)
      = (match hexVal h1, hexVal h2, hexVal h3, hexVal h4 with
         | some a, some b, some c3, some d =>
           (parseStringBody rest).map
             (fun p => (Char.ofNat (((a * 16 + b) * 16 + c3) * 16 + d) :: p.1, p.2))
         | _, _, _, _ => none) := rfl
  rw [key, e1, e2, e3, e4]

theorem parseStringBody_escapeChar (c : Char) (rest : List Char) :
    parseStringBody (escapeChar c ++ rest)
      = (parseStringBody rest).map (fun p => (c :: p.1, p.2)) := by
  by_cases g1 : c = '"'
  · subst g1; simp only [escapeChar]; norm_num; rw [parseStringBody.eq_def]; simp
  · by_cases g2 : c = '\\'
    · subst g2; simp only [escapeChar]; norm_num; rw [parseStringBody.eq_def]; simp
    · by_cases g3 : c = '\n'
      · subst g3; simp only [escapeChar]; norm_num; rw [parseStringBody.eq_def]; simp
      · by_cases g4 : c = '\t'
        · subst g4; simp only [escapeChar]; norm_num; rw [parseStringBody.eq_def]; simp
        · by_cases g5 : c = '\r'
          · subst g5; simp only [escapeChar]; norm_num; rw [parseStringBody.eq_def]; simp
          · by_cases g6 : c = '\x08'
            · subst g6; simp only [escapeChar]; norm_num; rw [parseStringBody.eq_def]; simp
            · by_cases g7 : c = '\x0c'
              · subst g7; simp only [escapeChar]; norm_num; rw [parseStringBody.eq_def]; simp
              · by_cases g8 : c.toNat < 0x20
                · simp only [escapeChar, if_neg g1, if_neg g2, if_neg g3, if_neg g4,
                    if_neg g5, if_neg g6, if_neg g7, if_pos g8, List.cons_append]
                  simp only [List.nil_append]
                  rw [parseStringBody_unicode (show hexVal '0' = some 0 by decide)
                    (show hexVal '0' = some 0 by decide)
                    (hexVal_hexChar (c.toNat / 16) (by omega))
                    (hexVal_hexChar (c.toNat % 16) (by omega)) rest]
                  have hch : Char.ofNat (((0 * 16 + 0) * 16 + c.toNat / 16) * 16 + c.toNat % 16)
                      = c := by
                    have harg : ((0 * 16 + 0) * 16 + c.toNat / 16) * 16 + c.toNat % 16
                        = c.toNat := by omega
                    rw [harg, Char.ofNat_toNat]
                  rw [hch]
                · simp only [escapeChar, if_neg g1, if_neg g2, if_neg g3, if_neg g4,
                    if_neg g5, if_neg g6, if_neg g7, if_neg g8, List.cons_append,
                    List.nil_append]
                  rw [parseStringBody.eq_def]
                  simp [if_neg g1, if_neg g2]

theorem parseStringBody_escapeChars (s : List Char) : ∀ rest : List Char,
    parseStringBody (escapeChars s ++ '"' :: rest) = some (s, rest) := by
  induction s with
  | nil =>
    intro rest
    show parseStringBody ('"' :: rest) = some ([], rest)
    rw [parseStringBody.eq_def]
    simp
  | cons c t ih =>
    intro rest
    have harr : escapeChars (c :: t) ++ '"' :: rest
        = escapeChar c ++ (escapeChars t ++ '"' :: rest) := by
      simp [escapeChars]
    rw [harr, parseStringBody_escapeChar, ih rest]
    rfl

/-! ## Lemmas: the parser inverts the serializer -/

theorem String.mkData (s : String) : String.mk s.data = s := rfl

theorem dumpV_head (j : Json) : ∃ c t, dumpV j = c :: t ∧ c ≠ ']' ∧ c ≠ '}' := by
  cases j with
  | null => exact ⟨'n', _, rfl, by decide, by decide⟩
  | bool b =>
    cases b with
    | true => exact ⟨'t', _, rfl, by decide, by decide⟩
    | false => exact ⟨'f', _, rfl, by decide, by decide⟩
  | str s => exact ⟨'"', _, rfl, by decide, by decide⟩
  | arr xs => exact ⟨'[', _, rfl, by decide, by decide⟩
  | obj kvs => exact ⟨'{', _, rfl, by decide, by decide⟩
  | int n =>
    by_cases hn : n < 0
    · exact ⟨'-', natChars n.natAbs, by simp [dumpV, intChars, hn], by decide, by decide⟩
    · obtain ⟨c, t, hct, hc⟩ := natChars_head n.natAbs
      have hne := digit_ne_chars hc
      exact ⟨c, t, by simp [dumpV, intChars, hn, hct], hne.2.2.2.2.2.2.2.2.1,
        hne.2.2.2.2.2.2.2.2.2⟩
  | dec m e =>
    obtain ⟨ip, fp, heq, hip, hfp, hipne, hfplen, hval⟩ := dumpDec_parts m e
    obtain ⟨c, t, hct⟩ : ∃ c t, ip = c :: t := by
      cases ip with
      | nil => exact absurd rfl hipne
      | cons c t => exact ⟨c, t, rfl⟩
    have hc : c.isDigit = true := hip c (by rw [hct]; simp)
    have hne := digit_ne_chars hc
    by_cases hm : m < 0
    · exact ⟨'-', ip ++ '.' :: fp,
        by rw [show dumpV (.dec m e) = dumpDec m e from rfl, heq, if_pos hm],
        by decide, by decide⟩
    · refine ⟨c, t ++ '.' :: fp, ?_, hne.2.2.2.2.2.2.2.2.1, hne.2.2.2.2.2.2.2.2.2⟩
      rw [show dumpV (.dec m e) = dumpDec m e from rfl, heq, if_neg hm, hct]
      simp

theorem parseValue_to_parseNumber (f : Nat) (c : Char) (cs : List Char)
    (h1 : c ≠ 'n') (h2 : c ≠ 't') (h3 : c ≠ 'f') (h4 : c ≠ '"')
    (h5 : c ≠ '[') (h6 : c ≠ '{') :
    parseValue (f + 1) (c :: cs) = parseNumber (c :: cs) := by
  rw [parseValue.eq_def]
  simp [h1, h2, h3, h4, h5, h6]

theorem numDelim_rsqb (t : List Char) : numDelim (']' :: t) = true := rfl

theorem numDelim_rcub (t : List Char) : numDelim ('}' :: t) = true := rfl

theorem numDelim_comma (t : List Char) : numDelim (',' :: t) = true := rfl

theorem rt_num (f : Nat) (j : Json) (cs rest : List Char)
    (hhead : ∃ c t, cs = c :: t ∧ (c = '-' ∨ c.isDigit = true))
    (hp : parseNumber (cs ++ rest) = some (j, rest)) :
    parseValue (f + 1) (cs ++ rest) = some (j, rest) := by
  obtain ⟨c, t, hct, hc⟩ := hhead
  subst hct
  rw [List.cons_append]
  rw [parseValue_to_parseNumber f c (t ++ rest) ?h1 ?h2 ?h3 ?h4 ?h5 ?h6]
  case h1 =>
    rcases hc with rfl | hd
    · decide
    · exact (digit_ne_chars hd).2.2.1
  case h2 =>
    rcases hc with rfl | hd
    · decide
    · exact (digit_ne_chars hd).2.2.2.1
  case h3 =>
    rcases hc with rfl | hd
    · decide
    · exact (digit_ne_chars hd).2.2.2.2.1
  case h4 =>
    rcases hc with rfl | hd
    · decide
    · exact (digit_ne_chars hd).2.2.2.2.2.1
  case h5 =>
    rcases hc with rfl | hd
    · decide
    · exact (digit_ne_chars hd).2.2.2.2.2.2.1
  case h6 =>
    rcases hc with rfl | hd
    · decide
    · exact (digit_ne_chars hd).2.2.2.2.2.2.2.1
  rw [← List.cons_append]
  exact hp

mutual
theorem rt_val : ∀ (j : Json) (fuel : Nat) (rest : List Char),
    (dumpV j).length < fuel → numDelim rest = true →
    parseValue fuel (dumpV j ++ rest) = some (j, rest)
  | .null, fuel, rest, hf, _ => by
    cases fuel with
    | zero => exact absurd hf (by omega)
    | succ f =>
      show parseValue (f + 1) (['n', 'u', 'l', 'l'] ++ rest) = some (.null, rest)
      simp only [List.cons_append, List.nil_append]
      rw [parseValue.eq_def]
      simp
  | .bool true, fuel, rest, hf, _ => by
    cases fuel with
    | zero => exact absurd hf (by omega)
    | succ f =>
      show parseValue (f + 1) (['t', 'r', 'u', 'e'] ++ rest) = some (.bool true, rest)
      simp only [List.cons_append, List.nil_append]
      rw [parseValue.eq_def]
      simp
  | .bool false, fuel, rest, hf, _ => by
    cases fuel with
    | zero => exact absurd hf (by omega)
    | succ f =>
      show parseValue (f + 1) (['f', 'a', 'l', 's', 'e'] ++ rest) = some (.bool false, rest)
      simp only [List.cons_append, List.nil_append]
      rw [parseValue.eq_def]
      simp
  | .int n, fuel, rest, hf, hr => by
    cases fuel with
    | zero => exact absurd hf (by omega)
    | succ f =>
      refine rt_num f (.int n) (intChars n) rest ?_ (parseNumber_intChars n hr)
      by_cases hn : n < 0
      · exact ⟨'-', natChars n.natAbs, by simp [intChars, hn], Or.inl rfl⟩
      · obtain ⟨c, t, hct, hc⟩ := natChars_head n.natAbs
        exact ⟨c, t, by simp [intChars, hn, hct], Or.inr hc⟩
  | .dec m e, fuel, rest, hf, hr => by
    cases fuel with
    | zero => exact absurd hf (by omega)
    | succ f =>
      refine rt_num f (.dec m e) (dumpDec m e) rest ?_ (parseNumber_dumpDec m e hr)
      obtain ⟨ip, fp, heq, hip, hfp, hipne, hfplen, hval⟩ := dumpDec_parts m e
      obtain ⟨c, t, hct⟩ : ∃ c t, ip = c :: t := by
        cases ip with
        | nil => exact absurd rfl hipne
        | cons c t => exact ⟨c, t, rfl⟩
      have hc : c.isDigit = true := hip c (by rw [hct]; simp)
      by_cases hm : m < 0
      · exact ⟨'-', ip ++ '.' :: fp, by rw [heq, if_pos hm], Or.inl rfl⟩
      · exact ⟨c, t ++ '.' :: fp, by rw [heq, if_neg hm, hct]; simp, Or.inr hc⟩
  | .str s, fuel, rest, hf, _ => by
    cases fuel with
    | zero => exact absurd hf (by omega)
    | succ f =>
      have harr : dumpV (.str s) ++ rest
          = '"' :: (escapeChars s.data ++ '"' :: rest) := by
        show dumpStr s ++ rest = _
        simp [dumpStr]
      rw [harr, parseValue.eq_def]
      simp [parseStringBody_escapeChars, String.mkData]
  | .arr .nil, fuel, rest, hf, _ => by
    cases fuel with
    | zero => exact absurd hf (by omega)
    | succ f =>
      show parseValue (f + 1) (('[' :: dumpL .nil) ++ rest) = some (.arr .nil, rest)
      simp only [dumpL, List.cons_append, List.nil_append]
      rw [parseValue.eq_def]
      simp
  | .arr (.cons x xs), fuel, rest, hf, hr => by
    cases fuel with
    | zero => exact absurd hf (by omega)
    | succ f =>
      obtain ⟨c, t, hct, hcrsq, _⟩ := dumpV_head x
      obtain ⟨k, hk⟩ : ∃ k, dumpL (.cons x xs) = dumpV x ++ k := by
        cases xs with
        | nil => exact ⟨[']'], rfl⟩
        | cons y ys => exact ⟨',' :: dumpL (.cons y ys), rfl⟩
      have hlen : (dumpL (.cons x xs)).length < f := by
        have hv : (dumpV (.arr (.cons x xs))).length = (dumpL (.cons x xs)).length + 1 := by
          show ('[' :: dumpL (.cons x xs)).length = _
          simp
        omega
      have key := rt_elems x xs f rest hlen hr
      have harr : dumpV (.arr (.cons x xs)) ++ rest = '[' :: (c :: (t ++ (k ++ rest))) := by
        show ('[' :: dumpL (.cons x xs)) ++ rest = _
        rw [hk, hct]
        simp
      have hback : c :: (t ++ (k ++ rest)) = dumpL (.cons x xs) ++ rest := by
        rw [hk, hct]
        simp
      rw [harr, parseValue.eq_def]
      simp only []
      rw [if_neg (by decide : ¬('[' : Char) = 'n'), if_neg (by decide : ¬('[' : Char) = 't'),
        if_neg (by decide : ¬('[' : Char) = 'f'), if_neg (by decide : ¬('[' : Char) = '"')]
      simp only [if_true, if_neg hcrsq]
      rw [hback, key]
      rfl
  | .obj .nil, fuel, rest, hf, _ => by
    cases fuel with
    | zero => exact absurd hf (by omega)
    | succ f =>
      show parseValue (f + 1) (('{' :: dumpM .nil) ++ rest) = some (.obj .nil, rest)
      simp only [dumpM, List.cons_append, List.nil_append]
      rw [parseValue.eq_def]
      simp
  | .obj (.cons k v kvs), fuel, rest, hf, hr => by
    cases fuel with
    | zero => exact absurd hf (by omega)
    | succ f =>
      have hlen : (dumpM (.cons k v kvs)).length < f := by
        have hv : (dumpV (.obj (.cons k v kvs))).length = (dumpM (.cons k v kvs)).length + 1 := by
          show ('{' :: dumpM (.cons k v kvs)).length = _
          simp
        omega
      have key := rt_members k v kvs f rest hlen hr
      obtain ⟨w, hw⟩ : ∃ w, dumpM (.cons k v kvs) = dumpStr k ++ ':' :: w := by
        cases kvs with
        | nil => exact ⟨dumpV v ++ ['}'], rfl⟩
        | cons k2 v2 kvs2 => exact ⟨dumpV v ++ ',' :: dumpM (.cons k2 v2 kvs2), rfl⟩
      have harr : dumpV (.obj (.cons k v kvs)) ++ rest
          = '{' :: ('"' :: (escapeChars k.data ++ '"' :: ':' :: (w ++ rest))) := by
        show ('{' :: dumpM (.cons k v kvs)) ++ rest = _
        rw [hw]
        simp [dumpStr]
      have hback : '"' :: (escapeChars k.data ++ '"' :: ':' :: (w ++ rest))
          = dumpM (.cons k v kvs) ++ rest := by
        rw [hw]
        simp [dumpStr]
      rw [harr, parseValue.eq_def]
      simp only []
      rw [if_neg (by decide : ¬('{' : Char) = 'n'), if_neg (by decide : ¬('{' : Char) = 't'),
        if_neg (by decide : ¬('{' : Char) = 'f'), if_neg (by decide : ¬('{' : Char) = '"'),
        if_neg (by decide : ¬('{' : Char) = '[')]
      simp only [if_true, if_neg (by decide : ¬('"' : Char) = '}')]
      rw [hback, key]
      rfl
  termination_by j _ _ _ _ => sizeOf j
theorem rt_elems : ∀ (x : Json) (xs : JsonList) (fuel : Nat) (rest : List Char),
    (dumpL (.cons x xs)).length < fuel → numDelim rest = true →
    parseElems fuel (dumpL (.cons x xs) ++ rest) = some (.cons x xs, rest)
  | x, .nil, fuel, rest, hf, hr => by
    cases fuel with
    | zero => exact absurd hf (by omega)
    | succ f =>
      have hlx : (dumpV x).length < f := by
        have : (dumpL (.cons x .nil)).length = (dumpV x).length + 1 := by
          show (dumpV x ++ [']']).length = _
          simp
        omega
      have hv := rt_val x f (']' :: rest) hlx (numDelim_rsqb rest)
      have harr : dumpL (.cons x .nil) ++ rest = dumpV x ++ (']' :: rest) := by
        show (dumpV x ++ [']']) ++ rest = _
        simp
      rw [harr, parseElems.eq_def]
      simp [hv]
  | x, .cons y ys, fuel, rest, hf, hr => by
    cases fuel with
    | zero => exact absurd hf (by omega)
    | succ f =>
      have hsplit : (dumpL (.cons x (.cons y ys))).length
          = (dumpV x).length + 1 + (dumpL (.cons y ys)).length := by
        show (dumpV x ++ ',' :: dumpL (.cons y ys)).length = _
        simp
        omega
      have hlx : (dumpV x).length < f := by omega
      have hly : (dumpL (.cons y ys)).length < f := by omega
      have hv := rt_val x f (',' :: (dumpL (.cons y ys) ++ rest)) hlx (numDelim_comma _)
      have key := rt_elems y ys f rest hly hr
      have harr : dumpL (.cons x (.cons y ys)) ++ rest
          = dumpV x ++ (',' :: (dumpL (.cons y ys) ++ rest)) := by
        show (dumpV x ++ ',' :: dumpL (.cons y ys)) ++ rest = _
        simp
      rw [harr, parseElems.eq_def]
      simp [hv, key]
  termination_by x xs _ _ _ _ => sizeOf x + sizeOf xs
theorem rt_members : ∀ (k : String) (v : Json) (kvs : JsonObj) (fuel : Nat) (rest : List Char),
    (dumpM (.cons k v kvs)).length < fuel → numDelim rest = true →
    parseMembers fuel (dumpM (.cons k v kvs) ++ rest) = some (.cons k v kvs, rest)
  | k, v, .nil, fuel, rest, hf, hr => by
    cases fuel with
    | zero => exact absurd hf (by omega)
    | succ f =>
      have hlv : (dumpV v).length < f := by
        have : (dumpM (.cons k v .nil)).length
            = (dumpStr k).length + 1 + ((dumpV v).length + 1) := by
          show (dumpStr k ++ ':' :: (dumpV v ++ ['}'])).length = _
          simp
          omega
        omega
      have hv := rt_val v f ('}' :: rest) hlv (numDelim_rcub rest)
      have harr : dumpM (.cons k v .nil) ++ rest
          = '"' :: (escapeChars k.data ++ '"' :: ':' :: (dumpV v ++ ('}' :: rest))) := by
        show (dumpStr k ++ ':' :: (dumpV v ++ ['}'])) ++ rest = _
        simp [dumpStr]
      rw [harr, parseMembers.eq_def]
      simp [parseStringBody_escapeChars, hv, String.mkData]
  | k, v, .cons k2 v2 kvs2, fuel, rest, hf, hr => by
    cases fuel with
    | zero => exact absurd hf (by omega)
    | succ f =>
      have hsplit : (dumpM (.cons k v (.cons k2 v2 kvs2))).length
          = (dumpStr k).length + 1 + (dumpV v).length + 1
            + (dumpM (.cons k2 v2 kvs2)).length := by
        show (dumpStr k ++ ':' :: (dumpV v ++ ',' :: dumpM (.cons k2 v2 kvs2))).length = _
        simp
        omega
      have hlv : (dumpV v).length < f := by omega
      have hlm : (dumpM (.cons k2 v2 kvs2)).length < f := by omega
      have hv := rt_val v f (',' :: (dumpM (.cons k2 v2 kvs2) ++ rest)) hlv (numDelim_comma _)
      have key := rt_members k2 v2 kvs2 f rest hlm hr
      have harr : dumpM (.cons k v (.cons k2 v2 kvs2)) ++ rest
          = '"' :: (escapeChars k.data
              ++ '"' :: ':' :: (dumpV v ++ (',' :: (dumpM (.cons k2 v2 kvs2) ++ rest)))) := by
        show (dumpStr k ++ ':' :: (dumpV v ++ ',' :: dumpM (.cons k2 v2 kvs2))) ++ rest = _
        simp [dumpStr]
      rw [harr, parseMembers.eq_def]
      simp [parseStringBody_escapeChars, hv, key, String.mkData]
  termination_by _ v kvs _ _ _ _ => sizeOf v + sizeOf kvs
end

/-- The JSON codec round-trip at the top level: parsing a serialized value
recovers it exactly. -/
theorem loads_dumps (j : Json) : loads (dumps j) = some j := by
  have key := rt_val j ((dumpV j).length + 1) [] (by omega) rfl
  rw [List.append_nil] at key
  show (match parseValue ((dumpV j).length + 1) (dumpV j) with
    | some (v, []) => some v
    | _ => none) = some j
  rw [key]

/-! ## Lemmas: the decoder's result mapping -/

theorem metaLookup_metaSet_self (m : Meta) (k : String) (v : MetaVal) :
    metaLookup (metaSet m k v) k = some v := by
  induction m with
  | nil => simp [metaSet, metaLookup]
  | cons h t ih =>
    obtain ⟨k1, v1⟩ := h
    by_cases hk : k1 = k
    · simp [metaSet, metaLookup, hk]
    · simp [metaSet, metaLookup, hk, ih]

theorem metaLookup_metaSet_ne (m : Meta) {k k2 : String} (v : MetaVal) (h : k2 ≠ k) :
    metaLookup (metaSet m k v) k2 = metaLookup m k2 := by
  induction m with
  | nil => simp [metaSet, metaLookup, if_neg (Ne.symm h)]
  | cons hd t ih =>
    obtain ⟨k1, v1⟩ := hd
    by_cases hk : k1 = k
    · subst hk
      simp [metaSet, metaLookup, if_neg (Ne.symm h)]
    · simp [metaSet, metaLookup, hk, ih]

theorem ne_of_headD {a b : String} (h : a.data.headD ' ' ≠ b.data.headD ' ') : a ≠ b :=
  fun e => h (by rw [e])

theorem headD_append {pre kw : String} {c : Char} {t : List Char} (hpre : pre.data = c :: t) :
    (pre ++ kw).data.headD ' ' = c := by
  rw [String.data_append, hpre]
  rfl

theorem png_text_key_ne_ai (kw : String) : ("PNG_tEXt_" ++ kw) ≠ "AI_METADATA_JSON" := by
  apply ne_of_headD
  rw [headD_append (rfl : ("PNG_tEXt_" : String).data = 'P' :: "NG_tEXt_".data)]
  decide

theorem png_ztxt_key_ne_ai (kw : String) : ("PNG_zTXt_" ++ kw) ≠ "AI_METADATA_JSON" := by
  apply ne_of_headD
  rw [headD_append (rfl : ("PNG_zTXt_" : String).data = 'P' :: "NG_zTXt_".data)]
  decide

theorem png_itxt_key_ne_ai (kw : String) : ("PNG_iTXt_" ++ kw) ≠ "AI_METADATA_JSON" := by
  apply ne_of_headD
  rw [headD_append (rfl : ("PNG_iTXt_" : String).data = 'P' :: "NG_iTXt_".data)]
  decide

theorem lookup_ai_processTextChunk (m : Meta) (chunk : List Char) :
    metaLookup (processTextChunk m chunk) "AI_METADATA_JSON"
      = match textChunkCandidate chunk with
        | some j => some (.json j)
        | none => metaLookup m "AI_METADATA_JSON" := by
  rw [processTextChunk, textChunkCandidate]
  cases hsp : splitFirstNull chunk with
  | none => rfl
  | some p =>
    obtain ⟨kw, text⟩ := p
    by_cases hai : aiKeywords (String.mk kw) = true
    · simp only [hai, if_true, Bool.true_or, if_pos rfl]
      cases hl : loads (pyStrip (String.mk text)) with
      | none => simp [metaLookup_metaSet_ne _ _ (png_text_key_ne_ai (String.mk kw)).symm]
      | some j => simp [metaLookup_metaSet_self]
    · simp only [hai, if_false, Bool.false_or]
      by_cases hmd : String.mk kw = "metadata"
      · simp only [hmd, if_pos rfl]
        cases hl : loads (pyStrip (String.mk text)) with
        | none =>
          simp [metaLookup_metaSet_ne _ _
            (show ("AI_METADATA_JSON" : String) ≠ "PNG_tEXt_metadata" by decide)]
        | some j => simp [metaLookup_metaSet_self]
      · simp only [hmd, if_neg hmd, if_false]
        simp [metaLookup_metaSet_ne _ _ (png_text_key_ne_ai (String.mk kw)).symm]

theorem lookup_ai_processZtxtChunk (env : DecodeEnv) (m : Meta) (chunk : List Char) :
    metaLookup (processZtxtChunk env m chunk) "AI_METADATA_JSON"
      = match ztxtChunkCandidate env chunk with
        | some j => some (.json j)
        | none => metaLookup m "AI_METADATA_JSON" := by
  rw [processZtxtChunk, ztxtChunkCandidate]
  cases hsp : splitFirstNull chunk with
  | none => rfl
  | some p =>
    obtain ⟨kw, post⟩ := p
    by_cases hai : aiKeywords (String.mk kw) = true
    · simp only [hai, if_true, Bool.true_or, if_pos rfl]
      cases post with
      | nil => simp [metaLookup_metaSet_ne _ _ (png_ztxt_key_ne_ai (String.mk kw)).symm]
      | cons c data =>
        by_cases hc : c.toNat = 0
        · simp only [hc, if_pos rfl, if_true]
          cases hz : env.zlibDecompress data with
          | none => simp [hz, metaLookup_metaSet_ne _ _ (png_ztxt_key_ne_ai (String.mk kw)).symm]
          | some txt =>
            cases hl : loads (pyStrip (String.mk txt)) with
            | none =>
              simp [hz, hl, metaLookup_metaSet_ne _ _ (png_ztxt_key_ne_ai (String.mk kw)).symm]
            | some j => simp [hz, hl, metaLookup_metaSet_self]
        · simp only [hc, if_neg hc, if_false]
          simp [metaLookup_metaSet_ne _ _ (png_ztxt_key_ne_ai (String.mk kw)).symm]
    · simp only [hai, if_false, Bool.false_or]
      by_cases hmd : String.mk kw = "metadata"
      · simp only [hmd, if_pos rfl]
        cases post with
        | nil =>
          simp [metaLookup_metaSet_ne _ _
            (show ("AI_METADATA_JSON" : String) ≠ "PNG_zTXt_metadata" by decide)]
        | cons c data =>
          by_cases hc : c.toNat = 0
          · simp only [hc, if_pos rfl, if_true]
            cases hz : env.zlibDecompress data with
            | none =>
              simp [hz, metaLookup_metaSet_ne _ _
                (show ("AI_METADATA_JSON" : String) ≠ "PNG_zTXt_metadata" by decide)]
            | some txt =>
              cases hl : loads (pyStrip (String.mk txt)) with
              | none =>
                simp [hz, hl, metaLookup_metaSet_ne _ _
                  (show ("AI_METADATA_JSON" : String) ≠ "PNG_zTXt_metadata" by decide)]
              | some j => simp [hz, hl, metaLookup_metaSet_self]
          · simp only [hc, if_neg hc, if_false]
            simp [metaLookup_metaSet_ne _ _
              (show ("AI_METADATA_JSON" : String) ≠ "PNG_zTXt_metadata" by decide)]
      · simp only [hmd, if_neg hmd, if_false]
        simp [metaLookup_metaSet_ne _ _ (png_ztxt_key_ne_ai (String.mk kw)).symm]

theorem lookup_ai_processItxtChunk (m : Meta) (chunk : List Char) :
    metaLookup (processItxtChunk m chunk) "AI_METADATA_JSON"
      = metaLookup m "AI_METADATA_JSON" := by
  rw [processItxtChunk]
  cases hsp : splitFirstNull chunk with
  | none => rfl
  | some p =>
    obtain ⟨kw, post⟩ := p
    cases hsp2 : splitFirstNull post with
    | none => simp [hsp2]
    | some q =>
      obtain ⟨lang, text⟩ := q
      simp [hsp2, metaLookup_metaSet_ne _ _ (png_itxt_key_ne_ai (String.mk kw)).symm]

theorem foldl_lastSome (l : List (Option Json)) : ∀ a0 : Option Json,
    l.foldl (fun a c => match c with | some j => some j | none => a) a0
      = match lastSome l with | some j => some j | none => a0 := by
  induction l with
  | nil => intro a0; rfl
  | cons x t ih =>
    intro a0
    have hx : lastSome (x :: t)
        = (t.foldl (fun a c => match c with | some j => some j | none => a)
            (match x with | some j => some j | none => none)) := rfl
    rw [List.foldl_cons, ih, hx, ih]
    cases x with
    | none => cases lastSome t <;> rfl
    | some j => cases lastSome t <;> rfl

theorem lastSome_append (l1 l2 : List (Option Json)) :
    lastSome (l1 ++ l2)
      = match lastSome l2 with | some j => some j | none => lastSome l1 := by
  show (l1 ++ l2).foldl _ none = _
  rw [List.foldl_append]
  have h1 : l1.foldl (fun a c => match c with | some j => some j | none => a) none
      = lastSome l1 := rfl
  rw [foldl_lastSome l2, h1]

theorem lookup_ai_foldText (chunks : List (List Char)) : ∀ m : Meta,
    metaLookup (chunks.foldl processTextChunk m) "AI_METADATA_JSON"
      = match lastSome (chunks.map textChunkCandidate) with
        | some j => some (.json j)
        | none => metaLookup m "AI_METADATA_JSON" := by
  induction chunks with
  | nil => intro m; rfl
  | cons c t ih =>
    intro m
    rw [List.foldl_cons, ih, List.map_cons]
    have hcons : lastSome (textChunkCandidate c :: t.map textChunkCandidate)
        = match lastSome (t.map textChunkCandidate) with
          | some j => some j
          | none => textChunkCandidate c := by
      show (t.map textChunkCandidate).foldl _ _ = _
      rw [foldl_lastSome]
      cases textChunkCandidate c <;> cases lastSome (t.map textChunkCandidate) <;> rfl
    rw [hcons, lookup_ai_processTextChunk]
    cases lastSome (t.map textChunkCandidate) <;> cases htc : textChunkCandidate c <;> simp [htc]

theorem lookup_ai_foldZtxt (env : DecodeEnv) (chunks : List (List Char)) : ∀ m : Meta,
    metaLookup (chunks.foldl (processZtxtChunk env) m) "AI_METADATA_JSON"
      = match lastSome (chunks.map (ztxtChunkCandidate env)) with
        | some j => some (.json j)
        | none => metaLookup m "AI_METADATA_JSON" := by
  induction chunks with
  | nil => intro m; rfl
  | cons c t ih =>
    intro m
    rw [List.foldl_cons, ih, List.map_cons]
    have hcons : lastSome (ztxtChunkCandidate env c :: t.map (ztxtChunkCandidate env))
        = match lastSome (t.map (ztxtChunkCandidate env)) with
          | some j => some j
          | none => ztxtChunkCandidate env c := by
      show (t.map (ztxtChunkCandidate env)).foldl _ _ = _
      rw [foldl_lastSome]
      cases ztxtChunkCandidate env c <;> cases lastSome (t.map (ztxtChunkCandidate env)) <;> rfl
    rw [hcons, lookup_ai_processZtxtChunk]
    cases lastSome (t.map (ztxtChunkCandidate env)) <;>
      cases htc : ztxtChunkCandidate env c <;> simp [htc]

theorem lookup_ai_foldItxt (chunks : List (List Char)) : ∀ m : Meta,
    metaLookup (chunks.foldl processItxtChunk m) "AI_METADATA_JSON"
      = metaLookup m "AI_METADATA_JSON" := by
  induction chunks with
  | nil => intro m; rfl
  | cons c t ih =>
    intro m
    rw [List.foldl_cons, ih, lookup_ai_processItxtChunk]

theorem ne_of_headD_eq {key t : String} (hp : key.data.headD ' ' ≠ 'P')
    (ht : t.data.headD ' ' = 'P') : key ≠ t :=
  fun e => hp (by rw [e, ht])

theorem lookup_other_processTextChunk (m : Meta) (chunk : List Char) {key : String}
    (hai : key ≠ "AI_METADATA_JSON") (hp : key.data.headD ' ' ≠ 'P') :
    metaLookup (processTextChunk m chunk) key = metaLookup m key := by
  have hne : ∀ kw : String, key ≠ "PNG_tEXt_" ++ kw := fun kw =>
    ne_of_headD_eq hp (headD_append (rfl : ("PNG_tEXt_" : String).data = 'P' :: "NG_tEXt_".data))
  have hnemd : key ≠ "PNG_tEXt_metadata" :=
    ne_of_headD_eq hp (rfl : ("PNG_tEXt_metadata" : String).data.headD ' ' = 'P')
  rw [processTextChunk]
  cases hsp : splitFirstNull chunk with
  | none => rfl
  | some p =>
    obtain ⟨kw, text⟩ := p
    by_cases hk1 : aiKeywords (String.mk kw) = true
    · simp only [hk1, if_true, if_pos rfl]
      cases hl : loads (pyStrip (String.mk text)) with
      | some j => simp [hl, metaLookup_metaSet_ne _ _ hai]
      | none => simp [hl, metaLookup_metaSet_ne _ _ (hne (String.mk kw))]
    · simp only [hk1, if_false, Bool.false_eq_true, if_neg hk1]
      by_cases hk2 : String.mk kw = "metadata"
      · simp only [hk2, if_pos rfl]
        cases hl : loads (pyStrip (String.mk text)) with
        | some j => simp [hl, metaLookup_metaSet_ne _ _ hai]
        | none => simp [hl, metaLookup_metaSet_ne _ _ hnemd]
      · simp only [hk2, if_neg hk2]
        simp [metaLookup_metaSet_ne _ _ (hne (String.mk kw))]

theorem lookup_other_processZtxtChunk (env : DecodeEnv) (m : Meta) (chunk : List Char)
    {key : String} (hai : key ≠ "AI_METADATA_JSON") (hp : key.data.headD ' ' ≠ 'P') :
    metaLookup (processZtxtChunk env m chunk) key = metaLookup m key := by
  have hne : ∀ kw : String, key ≠ "PNG_zTXt_" ++ kw := fun kw =>
    ne_of_headD_eq hp (headD_append (rfl : ("PNG_zTXt_" : String).data = 'P' :: "NG_zTXt_".data))
  have hnemd : key ≠ "PNG_zTXt_metadata" :=
    ne_of_headD_eq hp (rfl : ("PNG_zTXt_metadata" : String).data.headD ' ' = 'P')
  rw [processZtxtChunk]
  cases hsp : splitFirstNull chunk with
  | none => rfl
  | some p =>
    obtain ⟨kw, post⟩ := p
    by_cases hk1 : aiKeywords (String.mk kw) = true
    · simp only [hk1, if_true, if_pos rfl]
      cases post with
      | nil => simp [metaLookup_metaSet_ne _ _ (hne (String.mk kw))]
      | cons c data =>
        by_cases hc : c.toNat = 0
        · simp only [hc, if_pos rfl, if_true]
          cases hz : env.zlibDecompress data with
          | none => simp [hz, metaLookup_metaSet_ne _ _ (hne (String.mk kw))]
          | some txt =>
            cases hl : loads (pyStrip (String.mk txt)) with
            | some j => simp [hz, hl, metaLookup_metaSet_ne _ _ hai]
            | none => simp [hz, hl, metaLookup_metaSet_ne _ _ (hne (String.mk kw))]
        · simp only [hc, if_neg hc, if_false]
          simp [metaLookup_metaSet_ne _ _ (hne (String.mk kw))]
    · simp only [hk1, if_false, Bool.false_eq_true, if_neg hk1]
      by_cases hk2 : String.mk kw = "metadata"
      · simp only [hk2, if_pos rfl]
        cases post with
        | nil => simp [metaLookup_metaSet_ne _ _ hnemd]
        | cons c data =>
          by_cases hc : c.toNat = 0
          · simp only [hc, if_pos rfl, if_true]
            cases hz : env.zlibDecompress data with
            | none => simp [hz, metaLookup_metaSet_ne _ _ hnemd]
            | some txt =>
              cases hl : loads (pyStrip (String.mk txt)) with
              | some j => simp [hz, hl, metaLookup_metaSet_ne _ _ hai]
              | none => simp [hz, hl, metaLookup_metaSet_ne _ _ hnemd]
          · simp only [hc, if_neg hc, if_false]
            simp [metaLookup_metaSet_ne _ _ hnemd]
      · simp only [hk2, if_neg hk2]
        simp [metaLookup_metaSet_ne _ _ (hne (String.mk kw))]

theorem lookup_other_processItxtChunk (m : Meta) (chunk : List Char) {key : String}
    (hp : key.data.headD ' ' ≠ 'P') :
    metaLookup (processItxtChunk m chunk) key = metaLookup m key := by
  rw [processItxtChunk]
  cases hsp : splitFirstNull chunk with
  | none => rfl
  | some p =>
    obtain ⟨kw, post⟩ := p
    cases hsp2 : splitFirstNull post with
    | none => simp [hsp2]
    | some q =>
      obtain ⟨lang, text⟩ := q
      simp [hsp2, metaLookup_metaSet_ne _ _
        (ne_of_headD_eq hp
          (headD_append (rfl : ("PNG_iTXt_" : String).data = 'P' :: "NG_iTXt_".data)))]

theorem lookup_other_folds (env : DecodeEnv) {key : String}
    (hai : key ≠ "AI_METADATA_JSON") (hp : key.data.headD ' ' ≠ 'P') :
    ∀ (tc zc ic : List (List Char)) (m : Meta),
      metaLookup (ic.foldl processItxtChunk
        ((zc.foldl (processZtxtChunk env) (tc.foldl processTextChunk m)))) key
        = metaLookup m key := by
  have hT : ∀ (tc : List (List Char)) (m : Meta),
      metaLookup (tc.foldl processTextChunk m) key = metaLookup m key := by
    intro tc
    induction tc with
    | nil => intro m; rfl
    | cons c t ih =>
      intro m
      rw [List.foldl_cons, ih, lookup_other_processTextChunk m c hai hp]
  have hZ : ∀ (zc : List (List Char)) (m : Meta),
      metaLookup (zc.foldl (processZtxtChunk env) m) key = metaLookup m key := by
    intro zc
    induction zc with
    | nil => intro m; rfl
    | cons c t ih =>
      intro m
      rw [List.foldl_cons, ih, lookup_other_processZtxtChunk env m c hai hp]
  have hI : ∀ (ic : List (List Char)) (m : Meta),
      metaLookup (ic.foldl processItxtChunk m) key = metaLookup m key := by
    intro ic
    induction ic with
    | nil => intro m; rfl
    | cons c t ih =>
      intro m
      rw [List.foldl_cons, ih, lookup_other_processItxtChunk m c hp]
  intro tc zc ic m
  rw [hI, hZ, hT]

theorem extract_eq_folds (env : DecodeEnv) (info : FileInfo) (png : PngChunks)
    (hpng : pyLower info.suffix = ".png") :
    extract_image_metadata env info png
      = png.itxtChunks.foldl processItxtChunk
          (png.ztxtChunks.foldl (processZtxtChunk env)
            (png.textChunks.foldl processTextChunk
              [("Nom du fichier", .str info.fileName),
               ("Chemin", .str info.parentPath),
               ("Taille du fichier", .str (fmtKB info.sizeBytes)),
               ("Dimensions",
                 .str (natStr info.width ++ " x " ++ natStr info.height ++ " pixels")),
               ("Format",
                 .str (if info.suffix ≠ "" then String.mk ((pyUpper info.suffix).data.drop 1)
                   else "Inconnu")),
               ("Profondeur de couleur", .str (natStr info.depth ++ " bits")),
               ("Format Qt", .str info.formatQt)])) := by
  simp only [extract_image_metadata]
  rw [if_pos hpng]
  exact rfl

theorem lookup_ai_extract (env : DecodeEnv) (info : FileInfo) (png : PngChunks)
    (hpng : pyLower info.suffix = ".png") :
    metaLookup (extract_image_metadata env info png) "AI_METADATA_JSON"
      = (canonicalRecord env png).map MetaVal.json := by
  rw [extract_eq_folds env info png hpng, lookup_ai_foldItxt, lookup_ai_foldZtxt,
    lookup_ai_foldText]
  have hcr : canonicalRecord env png
      = match lastSome (png.ztxtChunks.map (ztxtChunkCandidate env)) with
        | some j => some j
        | none => lastSome (png.textChunks.map textChunkCandidate) := by
    rw [canonicalRecord, lastSome_append]
  rw [hcr]
  cases lastSome (png.ztxtChunks.map (ztxtChunkCandidate env)) <;>
    cases lastSome (png.textChunks.map textChunkCandidate) <;> rfl

theorem splitFirstNull_key {pre : List Char} (hpre : ∀ c ∈ pre, c.toNat ≠ 0)
    (post : List Char) : splitFirstNull (pre ++ '\x00' :: post) = some (pre, post) := by
  induction pre with
  | nil => rfl
  | cons c t ih =>
    have hc : c.toNat ≠ 0 := hpre c (by simp)
    have ht := ih (fun x hx => hpre x (by simp [hx]))
    simp [splitFirstNull, hc, ht]

theorem dumpM_ends : ∀ kvs : JsonObj, ∃ mid, dumpM kvs = mid ++ ['}']
  | .nil => ⟨[], rfl⟩
  | .cons k v .nil => ⟨dumpStr k ++ ':' :: dumpV v, by simp [dumpM]⟩
  | .cons k v (.cons k2 v2 t2) => by
    obtain ⟨mid, hmid⟩ := dumpM_ends (.cons k2 v2 t2)
    exact ⟨dumpStr k ++ ':' :: (dumpV v ++ ',' :: mid), by simp [dumpM, hmid]⟩

theorem pyStrip_dumps_obj (kvs : JsonObj) : pyStrip (dumps (.obj kvs)) = dumps (.obj kvs) := by
  obtain ⟨mid, hmid⟩ := dumpM_ends kvs
  have hdata : (dumps (.obj kvs)).data = '{' :: (mid ++ ['}']) := by
    show dumpV (.obj kvs) = _
    rw [show dumpV (.obj kvs) = '{' :: dumpM kvs from rfl, hmid]
  have h1 : ('{' :: (mid ++ ['}'])).dropWhile isPyWs = '{' :: (mid ++ ['}']) := by
    rw [List.dropWhile_cons]
    simp [isPyWs]
  have hrev : ('{' :: (mid ++ ['}'])).reverse = '}' :: (mid.reverse ++ ['{']) := by
    simp
  have h2 : ('}' :: (mid.reverse ++ ['{'])).dropWhile isPyWs
      = '}' :: (mid.reverse ++ ['{']) := by
    rw [List.dropWhile_cons]
    simp [isPyWs]
  show String.mk (pyStripChars (dumps (.obj kvs)).data) = dumps (.obj kvs)
  rw [hdata, pyStripChars, h1, hrev, h2, ← hrev, List.reverse_reverse, ← hdata]

theorem length_le_utf8Len (cs : List Char) : cs.length ≤ utf8Len cs := by
  induction cs with
  | nil => simp [utf8Len]
  | cons c t ih =>
    have hc : 1 ≤ charUtf8Size c := by
      simp only [charUtf8Size]
      split_ifs <;> omega
    have hu : utf8Len (c :: t) = charUtf8Size c + utf8Len t := by
      simp [utf8Len]
    rw [List.length_cons, hu]
    omega

theorem encode_no_truncation {all : JsonObj}
    (hsize : utf8Len (dumpV (.obj all)) ≤ 4000) :
    encode_metadata_json all = dumps (.obj all) := by
  have hlen : (dumps (.obj all)).length ≤ 4000 :=
    le_trans (length_le_utf8Len (dumpV (.obj all))) hsize
  rw [encode_metadata_json]
  simp only [if_neg (by omega : ¬4000 < (dumps (.obj all)).length)]

theorem dropWhile_ne_nil_of_mem {p : Char → Bool} {l : List Char} {c : Char}
    (hc : c ∈ l) (hp : p c = false) : l.dropWhile p ≠ [] := by
  induction l with
  | nil => cases hc
  | cons x t ih =>
    rw [List.dropWhile_cons]
    rcases List.mem_cons.mp hc with rfl | hm
    · rw [hp]
      simp
    · by_cases hx : p x = true
      · rw [if_pos hx]
        exact ih hm
      · rw [if_neg hx]
        simp

theorem dropWhile_append_ne {p : Char → Bool} {l1 : List Char} (h : l1.dropWhile p ≠ [])
    (l2 : List Char) : (l1 ++ l2).dropWhile p = l1.dropWhile p ++ l2 := by
  rw [List.dropWhile_append]
  rw [if_neg (by simpa using h)]

theorem parseMembers_dumpM : ∀ (k : String) (v : Json) (kvs : JsonObj) (fuel : Nat)
    (rest : List Char), (dumpM (.cons k v kvs)).length < fuel →
    parseMembers fuel (dumpM (.cons k v kvs) ++ rest) = some (.cons k v kvs, rest)
  | k, v, .nil, fuel, rest, hf => by
    cases fuel with
    | zero => exact absurd hf (by omega)
    | succ f =>
      have hlv : (dumpV v).length < f := by
        have : (dumpM (.cons k v .nil)).length
            = (dumpStr k).length + 1 + ((dumpV v).length + 1) := by
          show (dumpStr k ++ ':' :: (dumpV v ++ ['}'])).length = _
          simp
          omega
        omega
      have hv := rt_val v f ('}' :: rest) hlv (numDelim_rcub rest)
      have harr : dumpM (.cons k v .nil) ++ rest
          = '"' :: (escapeChars k.data ++ '"' :: ':' :: (dumpV v ++ ('}' :: rest))) := by
        show (dumpStr k ++ ':' :: (dumpV v ++ ['}'])) ++ rest = _
        simp [dumpStr]
      rw [harr, parseMembers.eq_def]
      simp [parseStringBody_escapeChars, hv, String.mkData]
  | k, v, .cons k2 v2 kvs2, fuel, rest, hf => by
    cases fuel with
    | zero => exact absurd hf (by omega)
    | succ f =>
      have hsplit : (dumpM (.cons k v (.cons k2 v2 kvs2))).length
          = (dumpStr k).length + 1 + (dumpV v).length + 1
            + (dumpM (.cons k2 v2 kvs2)).length := by
        show (dumpStr k ++ ':' :: (dumpV v ++ ',' :: dumpM (.cons k2 v2 kvs2))).length = _
        simp
        omega
      have hlv : (dumpV v).length < f := by omega
      have hlm : (dumpM (.cons k2 v2 kvs2)).length < f := by omega
      have hv := rt_val v f (',' :: (dumpM (.cons k2 v2 kvs2) ++ rest)) hlv (numDelim_comma _)
      have key := parseMembers_dumpM k2 v2 kvs2 f rest hlm
      have harr : dumpM (.cons k v (.cons k2 v2 kvs2)) ++ rest
          = '"' :: (escapeChars k.data
              ++ '"' :: ':' :: (dumpV v ++ (',' :: (dumpM (.cons k2 v2 kvs2) ++ rest)))) := by
        show (dumpStr k ++ ':' :: (dumpV v ++ ',' :: dumpM (.cons k2 v2 kvs2))) ++ rest = _
        simp [dumpStr]
      rw [harr, parseMembers.eq_def]
      simp [parseStringBody_escapeChars, hv, key, String.mkData]
  termination_by _ _ kvs _ _ _ => sizeOf kvs

theorem parseValue_dumps_obj (kvs : JsonObj) (fuel : Nat) (rest : List Char)
    (hf : (dumpV (.obj kvs)).length < fuel) :
    parseValue fuel (dumpV (.obj kvs) ++ rest) = some (.obj kvs, rest) := by
  cases kvs with
  | nil =>
    cases fuel with
    | zero => exact absurd hf (by omega)
    | succ f =>
      show parseValue (f + 1) (('{' :: dumpM .nil) ++ rest) = some (.obj .nil, rest)
      simp only [dumpM, List.cons_append, List.nil_append]
      rw [parseValue.eq_def]
      simp
  | cons k v kvs2 =>
    cases fuel with
    | zero => exact absurd hf (by omega)
    | succ f =>
      have hlen : (dumpM (.cons k v kvs2)).length < f := by
        have hv : (dumpV (.obj (.cons k v kvs2))).length
            = (dumpM (.cons k v kvs2)).length + 1 := by
          show ('{' :: dumpM (.cons k v kvs2)).length = _
          simp
        omega
      have key := parseMembers_dumpM k v kvs2 f rest hlen
      obtain ⟨w, hw⟩ : ∃ w, dumpM (.cons k v kvs2) = dumpStr k ++ ':' :: w := by
        cases kvs2 with
        | nil => exact ⟨dumpV v ++ ['}'], rfl⟩
        | cons k2 v2 kvs3 => exact ⟨dumpV v ++ ',' :: dumpM (.cons k2 v2 kvs3), rfl⟩
      have harr : dumpV (.obj (.cons k v kvs2)) ++ rest
          = '{' :: ('"' :: (escapeChars k.data ++ '"' :: ':' :: (w ++ rest))) := by
        show ('{' :: dumpM (.cons k v kvs2)) ++ rest = _
        rw [hw]
        simp [dumpStr]
      have hback : '"' :: (escapeChars k.data ++ '"' :: ':' :: (w ++ rest))
          = dumpM (.cons k v kvs2) ++ rest := by
        rw [hw]
        simp [dumpStr]
      rw [harr, parseValue.eq_def]
      simp only []
      rw [if_neg (by decide : ¬('{' : Char) = 'n'), if_neg (by decide : ¬('{' : Char) = 't'),
        if_neg (by decide : ¬('{' : Char) = 'f'), if_neg (by decide : ¬('{' : Char) = '"'),
        if_neg (by decide : ¬('{' : Char) = '[')]
      simp only [if_true, if_neg (by decide : ¬('"' : Char) = '}')]
      rw [hback, key]
      rfl

theorem loads_dumps_obj_trailing (kvs : JsonObj) {junk : List Char} (hj : junk ≠ []) :
    loads (String.mk ((dumps (.obj kvs)).data ++ junk)) = none := by
  have key := parseValue_dumps_obj kvs ((dumpV (.obj kvs) ++ junk).length + 1) junk
    (by simp only [List.length_append]; omega)
  show (match parseValue ((dumpV (.obj kvs) ++ junk).length + 1) (dumpV (.obj kvs) ++ junk) with
    | some (j, []) => some j
    | _ => none) = none
  rw [key]
  cases junk with
  | nil => exact absurd rfl hj
  | cons c t => rfl

theorem pyStrip_dumps_obj_junk (kvs : JsonObj) (junk : List Char)
    (hex : ∃ c ∈ junk, isPyWs c = false) :
    ∃ junk2, junk2 ≠ []
      ∧ pyStrip (String.mk ((dumps (.obj kvs)).data ++ junk))
          = String.mk ((dumps (.obj kvs)).data ++ junk2) := by
  obtain ⟨c0, hc0m, hc0⟩ := hex
  obtain ⟨mid, hmid⟩ := dumpM_ends kvs
  have hdata : (dumps (.obj kvs)).data = '{' :: (mid ++ ['}']) := by
    show dumpV (.obj kvs) = _
    rw [show dumpV (.obj kvs) = '{' :: dumpM kvs from rfl, hmid]
  have hrevne : junk.reverse.dropWhile isPyWs ≠ [] :=
    dropWhile_ne_nil_of_mem (List.mem_reverse.mpr hc0m) hc0
  refine ⟨(junk.reverse.dropWhile isPyWs).reverse, by simpa using hrevne, ?_⟩
  show String.mk (pyStripChars ((dumps (.obj kvs)).data ++ junk)) = _
  rw [pyStripChars, hdata]
  have h1 : (('{' :: (mid ++ ['}'])) ++ junk).dropWhile isPyWs
      = ('{' :: (mid ++ ['}'])) ++ junk := by
    rw [List.cons_append, List.dropWhile_cons]
    simp [isPyWs]
  rw [h1]
  have h2 : ((('{' :: (mid ++ ['}'])) ++ junk).reverse)
      = junk.reverse ++ ('}' :: (mid.reverse ++ ['{'])) := by
    simp
  rw [h2]
  have h3 : (junk.reverse ++ ('}' :: (mid.reverse ++ ['{']))).dropWhile isPyWs
      = junk.reverse.dropWhile isPyWs ++ ('}' :: (mid.reverse ++ ['{'])) :=
    dropWhile_append_ne hrevne _
  rw [h3]
  have h4 : (junk.reverse.dropWhile isPyWs ++ ('}' :: (mid.reverse ++ ['{']))).reverse
      = ('{' :: (mid ++ ['}'])) ++ (junk.reverse.dropWhile isPyWs).reverse := by
    simp
  rw [h4, ← hdata]

theorem loads_capture_text (all : JsonObj) (junk : List Char)
    (hsize : utf8Len (dumpV (.obj all)) ≤ 4000)
    (hex : ∃ c ∈ junk, isPyWs c = false) :
    loads (pyStrip (String.mk ((encode_metadata_json all).data ++ junk))) = none := by
  rw [encode_no_truncation hsize]
  obtain ⟨junk2, hne, hstrip⟩ := pyStrip_dumps_obj_junk all junk hex
  rw [hstrip]
  exact loads_dumps_obj_trailing all hne

theorem textChunkCandidate_capture (all : JsonObj) (junk : List Char)
    (hsize : utf8Len (dumpV (.obj all)) ≤ 4000)
    (hex : ∃ c ∈ junk, isPyWs c = false) :
    textChunkCandidate (metadataChunkCapture all junk) = none := by
  rw [textChunkCandidate, metadataChunkCapture]
  rw [splitFirstNull_key (by decide) _]
  dsimp only
  rw [if_pos (by decide)]
  exact loads_capture_text all junk hsize hex

theorem processTextChunk_capture (m : Meta) (all : JsonObj) (junk : List Char)
    (hsize : utf8Len (dumpV (.obj all)) ≤ 4000)
    (hex : ∃ c ∈ junk, isPyWs c = false) :
    processTextChunk m (metadataChunkCapture all junk)
      = metaSet m "PNG_tEXt_metadata"
          (.str (String.mk ((encode_metadata_json all).data ++ junk))) := by
  rw [processTextChunk, metadataChunkCapture]
  rw [splitFirstNull_key (by decide) _]
  dsimp only
  rw [if_neg (by decide), if_pos (by decide)]
  rw [loads_capture_text all junk hsize hex]
  rfl

theorem lookup_dims_extract (env : DecodeEnv) (info : FileInfo) (png : PngChunks)
    (hpng : pyLower info.suffix = ".png") :
    metaLookup (extract_image_metadata env info png) "Dimensions"
      = some (.str (natStr info.width ++ " x " ++ natStr info.height ++ " pixels")) := by
  rw [extract_eq_folds env info png hpng,
    lookup_other_folds env (by decide) (by decide) png.textChunks png.ztxtChunks
      png.itxtChunks]
  rfl

theorem lookup_format_extract (env : DecodeEnv) (info : FileInfo) (png : PngChunks)
    (hpng : pyLower info.suffix = ".png") :
    metaLookup (extract_image_metadata env info png) "Format"
      = some (.str (if info.suffix ≠ "" then String.mk ((pyUpper info.suffix).data.drop 1)
          else "Inconnu")) := by
  rw [extract_eq_folds env info png hpng,
    lookup_other_folds env (by decide) (by decide) png.textChunks png.ztxtChunks
      png.itxtChunks]
  rfl

/-! ## Lemmas: auto-save -/

theorem fmtAutoSaveTimestamp_length {t : DateTime} (hv : t.valid) :
    (fmtAutoSaveTimestamp t).length = 19 := by
  obtain ⟨hy, hmo, hd, hh, hmi, hs, hmu⟩ := hv
  have ly : (padZeros 4 (natChars t.year)).length = 4 :=
    padZeros_length (natChars_length_le 4 t.year (by omega) (by omega))
  have lmo : (padZeros 2 (natChars t.month)).length = 2 :=
    padZeros_length (natChars_length_le 2 t.month (by omega) (by omega))
  have ld : (padZeros 2 (natChars t.day)).length = 2 :=
    padZeros_length (natChars_length_le 2 t.day (by omega) (by omega))
  have lh : (padZeros 2 (natChars t.hour)).length = 2 :=
    padZeros_length (natChars_length_le 2 t.hour (by omega) (by omega))
  have lmi : (padZeros 2 (natChars t.minute)).length = 2 :=
    padZeros_length (natChars_length_le 2 t.minute (by omega) (by omega))
  have ls : (padZeros 2 (natChars t.second)).length = 2 :=
    padZeros_length (natChars_length_le 2 t.second (by omega) (by omega))
  have lmu : (padZeros 6 (natChars t.micro)).length = 6 :=
    padZeros_length (natChars_length_le 6 t.micro (by omega) (by omega))
  show (String.mk _).length = 19
  simp only [fmtAutoSaveTimestamp, String.length, List.length_take, List.length_append,
    List.length_cons, ly, lmo, ld, lh, lmi, ls, lmu]
  omega

theorem saveImagesLoop_spec (env : SaveEnv) (prompt ityp : String) (tf : List String) :
    ∀ (results : List Image) (i : Nat),
      saveImagesLoop env prompt ityp tf results i
        = ((((List.range results.length).map
              (fun k => tf ++ [auto_save_filename prompt
                (fmtAutoSaveTimestamp (env.now (i + k))) ityp (i + k)])).filter
              (fun pa => !env.saveFails pa)).length,
           (((List.range results.length).map
              (fun k => tf ++ [auto_save_filename prompt
                (fmtAutoSaveTimestamp (env.now (i + k))) ityp (i + k)])).filter
              (fun pa => !env.saveFails pa))) := by
  intro results
  induction results with
  | nil => intro i; rfl
  | cons img rest ih =>
    intro i
    have hstep : saveImagesLoop env prompt ityp tf (img :: rest) i
        = (if env.saveFails (tf ++ [auto_save_filename prompt
              (fmtAutoSaveTimestamp (env.now i)) ityp i])
           then saveImagesLoop env prompt ityp tf rest (i + 1)
           else ((saveImagesLoop env prompt ityp tf rest (i + 1)).1 + 1,
             (tf ++ [auto_save_filename prompt (fmtAutoSaveTimestamp (env.now i)) ityp i])
               :: (saveImagesLoop env prompt ityp tf rest (i + 1)).2)) := by
      rw [saveImagesLoop]
    have hrange : (List.range (img :: rest).length).map
          (fun k => tf ++ [auto_save_filename prompt
            (fmtAutoSaveTimestamp (env.now (i + k))) ityp (i + k)])
        = (tf ++ [auto_save_filename prompt (fmtAutoSaveTimestamp (env.now i)) ityp i])
          :: (List.range rest.length).map
            (fun k => tf ++ [auto_save_filename prompt
              (fmtAutoSaveTimestamp (env.now (i + 1 + k))) ityp (i + 1 + k)]) := by
      have hcomp : ∀ k ∈ List.range rest.length,
          ((fun k => tf ++ [auto_save_filename prompt
            (fmtAutoSaveTimestamp (env.now (i + k))) ityp (i + k)]) ∘ Nat.succ) k
          = tf ++ [auto_save_filename prompt
              (fmtAutoSaveTimestamp (env.now (i + 1 + k))) ityp (i + 1 + k)] := by
        intro k hk
        simp only [Function.comp_apply]
        have h2 : i + (k + 1) = i + 1 + k := by omega
        rw [h2]
      rw [List.length_cons, List.range_succ_eq_map, List.map_cons, List.map_map,
        List.map_congr_left hcomp]
      simp
    rw [hstep, ih (i + 1), hrange, List.filter_cons]
    by_cases hfail : env.saveFails (tf ++ [auto_save_filename prompt
        (fmtAutoSaveTimestamp (env.now i)) ityp i])
    · simp [hfail]
    · simp [hfail]

theorem historyLoop_fst (env : SaveEnv) (cfg : SaveSettings) (doc : String) :
    ∀ entries : List Job,
      (historyLoop env cfg doc entries).1
        = ((entries.filter
              (fun j => decide (j.results ≠ [] ∧ j.kind ∈ historyKinds))).map
            (fun j => match (save_job_images env cfg doc j).1 with
              | .ok n => n
              | .error _ => 0)).sum := by
  intro entries
  induction entries with
  | nil => rfl
  | cons job rest ih =>
    rw [historyLoop]
    by_cases hc : job.results ≠ [] ∧ job.kind ∈ historyKinds
    · rw [if_pos hc, List.filter_cons, if_pos (by simpa using hc)]
      simp only [List.map_cons, List.sum_cons]
      rw [ih]
    · rw [if_neg hc, List.filter_cons, if_neg (by simpa using hc)]
      exact ih

theorem filter_bang_replicate_a {f : Char → Bool} (hf : f 'a' = true) (n : Nat) :
    (List.replicate n 'a').filter f = List.replicate n 'a' := by
  induction n with
  | zero => rfl
  | succ n ih => simp [List.replicate_succ, List.filter_cons, hf, ih]

theorem pyStripChars_replicate_a (n : Nat) :
    pyStripChars (List.replicate n 'a') = List.replicate n 'a' := by
  cases n with
  | zero => rfl
  | succ n =>
    rw [pyStripChars]
    have h1 : (List.replicate (n + 1) 'a').dropWhile isPyWs = List.replicate (n + 1) 'a' := by
      rw [List.replicate_succ, List.dropWhile_cons]
      simp [isPyWs]
    rw [h1, List.reverse_replicate]
    have h2 : (List.replicate (n + 1) 'a').dropWhile isPyWs = List.replicate (n + 1) 'a' := h1
    rw [h2, List.reverse_replicate]

theorem clean_replicate_a (n : Nat) :
    clean_metadata_value (String.mk (List.replicate n 'a')) = String.mk (List.replicate n 'a') := by
  rw [clean_metadata_value]
  show String.mk (pyStripChars ((List.replicate n 'a').filter _)) = _
  rw [filter_bang_replicate_a (by decide) n, pyStripChars_replicate_a n]

theorem escapeChars_replicate_a (n : Nat) :
    escapeChars (List.replicate n 'a') = List.replicate n 'a' := by
  induction n with
  | zero => rfl
  | succ n ih =>
    rw [List.replicate_succ, escapeChars, List.flatMap_cons]
    have ha : escapeChar 'a' = ['a'] := by decide
    rw [ha]
    show 'a' :: escapeChars (List.replicate n 'a') = _
    rw [ih]

theorem dumps_obj_prompt_length_ge (s : String) (k2 : String) (v2 : Json) (rest : JsonObj) :
    2 + (escapeChars s.data).length
      ≤ (dumps (.obj (.cons "prompt" (.str s) (.cons k2 v2 rest)))).length := by
  show 2 + (escapeChars s.data).length ≤ (dumpV (.obj _)).length
  have hshape : dumpV (.obj (.cons "prompt" (.str s) (.cons k2 v2 rest)))
      = '{' :: (dumpStr "prompt" ++ ':' :: (dumpStr s ++ ',' :: dumpM (.cons k2 v2 rest))) := rfl
  rw [hshape]
  simp only [List.length_cons, List.length_append, dumpStr, List.length_cons,
    List.length_append, List.length_cons, List.length_nil]
  omega

/-! ## The claims -/

/-- C10: if the auto-save setting is disabled, or the job's result list is
empty, `save_job_images` returns 0 before creating any directory or writing
any file — the trace of created directories and written files is empty, so the
file system is untouched. -/
theorem C10_noop_guard (env : SaveEnv) (cfg : SaveSettings) (doc : String) (job : Job)
    (h : cfg.auto_save_generated = false ∨ job.results = []) :
    save_job_images env cfg doc job = (.ok 0, ⟨[], []⟩) := by
  rw [save_job_images]
  rcases h with h | h
  · rw [if_pos (by simp [h])]
  · cases hg : cfg.auto_save_generated with
    | false => rw [if_pos (by simp [hg])]
    | true => rw [if_neg (by simp [hg]), if_pos h]

/-- C10 witness: with auto-save disabled, a one-image job produces no effect;
with it enabled but no results, likewise. -/
theorem C10_noop_guard_witness :
    save_job_images ⟨fun _ => false, fun _ => false, fun _ => ⟨2024, 1, 2, 3, 4, 5, 6⟩⟩
        ⟨false, ["base"]⟩ ""
        { id := "j", kind := .diffusion, state := .finished,
          params := { name := "n", prompt := "p", seed := 0, strength := ⟨10, 0⟩,
                      metadata := [], loras := none },
          timestamp := ⟨2024, 1, 1, 0, 0, 0, 0⟩, results := [⟨0⟩] }
      = (.ok 0, ⟨[], []⟩)
    ∧ save_job_images ⟨fun _ => false, fun _ => false, fun _ => ⟨2024, 1, 2, 3, 4, 5, 6⟩⟩
        ⟨true, ["base"]⟩ ""
        { id := "j", kind := .diffusion, state := .finished,
          params := { name := "n", prompt := "p", seed := 0, strength := ⟨10, 0⟩,
                      metadata := [], loras := none },
          timestamp := ⟨2024, 1, 1, 0, 0, 0, 0⟩, results := [] }
      = (.ok 0, ⟨[], []⟩) :=
  ⟨C10_noop_guard _ _ _ _ (Or.inl rfl), C10_noop_guard _ _ _ _ (Or.inr rfl)⟩

/-- C3 counterexample: the label the code assigns to a plain diffusion job at
full strength is `ImgGenerate` (persistence.py line 293), not `Generate` as the
claim states. -/
theorem C3_counterexample :
    get_image_type
        { id := "j", kind := .diffusion, state := .finished,
          params := { name := "n", prompt := "p", seed := 0, strength := ⟨10, 0⟩,
                      metadata := [], loras := none },
          timestamp := ⟨2024, 1, 1, 0, 0, 0, 0⟩, results := [] }
      = "ImgGenerate"
    ∧ ("ImgGenerate" : String) ≠ "Generate" := by
  constructor
  · rfl
  · decide

/-- C3 (amended): the classifier returns `Upscale` for upscaling jobs
regardless of strength, `Refine` for other jobs with strength below 1.0, and
`ImgGenerate` (not `Generate`) otherwise; the labels form the closed set
containing exactly `Upscale`, `Refine` and `ImgGenerate`. -/
theorem C3_amended_classification (job : Job) :
    (job.kind = .upscaling → get_image_type job = "Upscale")
    ∧ (job.kind ≠ .upscaling → job.params.strength.ltOne = true →
        get_image_type job = "Refine")
    ∧ (job.kind ≠ .upscaling → job.params.strength.ltOne = false →
        get_image_type job = "ImgGenerate")
    ∧ (get_image_type job = "Upscale" ∨ get_image_type job = "Refine"
        ∨ get_image_type job = "ImgGenerate") := by
  refine ⟨?_, ?_, ?_, ?_⟩
  · intro hk
    rw [get_image_type, if_pos hk]
  · intro hk hs
    rw [get_image_type, if_neg hk, if_pos hs]
  · intro hk hs
    rw [get_image_type, if_neg hk]
    simp [hs]
  · rw [get_image_type]
    by_cases hk : job.kind = JobKind.upscaling
    · simp [hk]
    · by_cases hs : job.params.strength.ltOne <;> simp [hk, hs]

/-- C3 witness: the spec's four classification vectors, with the code's actual
third label: upscaling at any strength is `Upscale`, diffusion at 0.5 is
`Refine`, diffusion at 1.0 and animation at 1.0 are `ImgGenerate`. -/
theorem C3_amended_classification_witness :
    get_image_type
        { id := "j", kind := .upscaling, state := .finished,
          params := { name := "n", prompt := "p", seed := 0, strength := ⟨5, 0⟩,
                      metadata := [], loras := none },
          timestamp := ⟨2024, 1, 1, 0, 0, 0, 0⟩, results := [] } = "Upscale"
    ∧ get_image_type
        { id := "j", kind := .diffusion, state := .finished,
          params := { name := "n", prompt := "p", seed := 0, strength := ⟨5, 0⟩,
                      metadata := [], loras := none },
          timestamp := ⟨2024, 1, 1, 0, 0, 0, 0⟩, results := [] } = "Refine"
    ∧ get_image_type
        { id := "j", kind := .diffusion, state := .finished,
          params := { name := "n", prompt := "p", seed := 0, strength := ⟨10, 0⟩,
                      metadata := [], loras := none },
          timestamp := ⟨2024, 1, 1, 0, 0, 0, 0⟩, results := [] } = "ImgGenerate"
    ∧ get_image_type
        { id := "j", kind := .animation, state := .finished,
          params := { name := "n", prompt := "p", seed := 0, strength := ⟨10, 0⟩,
                      metadata := [], loras := none },
          timestamp := ⟨2024, 1, 1, 0, 0, 0, 0⟩, results := [] } = "ImgGenerate" :=
  ⟨(C3_amended_classification _).1 rfl,
   (C3_amended_classification _).2.1 (by decide) (by decide),
   (C3_amended_classification _).2.2.1 (by decide) (by decide),
   (C3_amended_classification _).2.2.1 (by decide) (by decide)⟩

/-- C9: within one `save_job_images` call the computed destination paths are
pairwise distinct: the filename embeds the 0-based image index, so two
different indices give two different paths even when every `datetime.now()`
reading is identical — the fixed 19-character timestamp shape keeps the index
segments aligned. -/
theorem C9_filename_uniqueness (env : SaveEnv) (cfg : SaveSettings) (doc : String)
    (job : Job) (hvalid : ∀ k, k < job.results.length → (env.now k).valid)
    (i j : Nat) (hi : i < job.results.length) (hj : j < job.results.length) (hij : i ≠ j) :
    auto_save_path env cfg doc job i ≠ auto_save_path env cfg doc job j := by
  intro heq
  simp only [auto_save_path] at heq
  have h3 := List.append_cancel_left heq
  simp only [List.cons.injEq, and_true] at h3
  obtain ⟨-, -, h4⟩ := h3
  have hshape : ∀ k, (auto_save_filename (sanitize_prompt job.params.name)
      (fmtAutoSaveTimestamp (env.now k)) (get_image_type job) k).data
      = ((sanitize_prompt job.params.name).data ++ '_' :: (fmtAutoSaveTimestamp (env.now k)).data)
        ++ ('_' :: ((get_image_type job).data ++ ('_' :: (natChars k ++ ".png".data)))) := by
    intro k
    show ((sanitize_prompt job.params.name) ++ "_" ++ fmtAutoSaveTimestamp (env.now k)
      ++ "_" ++ get_image_type job ++ "_" ++ natStr k ++ ".png").data = _
    simp [String.data_append, natStr]
  have hdata := congrArg String.data h4
  rw [hshape i, hshape j] at hdata
  have hlen : ((sanitize_prompt job.params.name).data
        ++ '_' :: (fmtAutoSaveTimestamp (env.now i)).data).length
      = ((sanitize_prompt job.params.name).data
        ++ '_' :: (fmtAutoSaveTimestamp (env.now j)).data).length := by
    have l19i : (fmtAutoSaveTimestamp (env.now i)).data.length = 19 :=
      fmtAutoSaveTimestamp_length (hvalid i hi)
    have l19j : (fmtAutoSaveTimestamp (env.now j)).data.length = 19 :=
      fmtAutoSaveTimestamp_length (hvalid j hj)
    simp only [List.length_append, List.length_cons, l19i, l19j]
  have hinj := List.append_inj hdata hlen
  have hrest := hinj.2
  simp only [List.cons.injEq, true_and] at hrest
  have h5 := List.append_cancel_left hrest
  simp only [List.cons.injEq, true_and] at h5
  have h6 := (List.append_inj' h5 rfl).1
  exact hij (natChars_inj h6)

/-- C9 witness: a batch of five images saved within the same wall-clock
second (identical clock readings) yields five pairwise distinct paths; here
the first two are compared through the theorem. -/
theorem C9_filename_uniqueness_witness :
    auto_save_path ⟨fun _ => false, fun _ => false, fun _ => ⟨2024, 1, 2, 3, 4, 5, 6⟩⟩
        ⟨true, ["base"]⟩ ""
        { id := "j", kind := .diffusion, state := .finished,
          params := { name := "img name", prompt := "p", seed := 0, strength := ⟨10, 0⟩,
                      metadata := [], loras := none },
          timestamp := ⟨2024, 1, 1, 0, 0, 0, 0⟩,
          results := [⟨0⟩, ⟨1⟩, ⟨2⟩, ⟨3⟩, ⟨4⟩] } 0
      ≠ auto_save_path ⟨fun _ => false, fun _ => false, fun _ => ⟨2024, 1, 2, 3, 4, 5, 6⟩⟩
        ⟨true, ["base"]⟩ ""
        { id := "j", kind := .diffusion, state := .finished,
          params := { name := "img name", prompt := "p", seed := 0, strength := ⟨10, 0⟩,
                      metadata := [], loras := none },
          timestamp := ⟨2024, 1, 1, 0, 0, 0, 0⟩,
          results := [⟨0⟩, ⟨1⟩, ⟨2⟩, ⟨3⟩, ⟨4⟩] } 1 :=
  C9_filename_uniqueness _ _ _ _
    (fun k hk => show (DateTime.mk 2024 1 2 3 4 5 6).valid from
      ⟨by decide, by decide, by decide, by decide, by decide, by decide, by decide⟩)
    0 1 (by decide) (by decide) (by decide)


/-- C7: when the guards pass and every `mkdir` succeeds, `save_job_images`
attempts every result image independently: it returns exactly the number of
indices whose save call succeeds, and the files left on disk are exactly the
successfully saved destination paths — a failure at one index neither stops
the loop nor removes earlier files. -/
theorem C7_partial_failure (env : SaveEnv) (cfg : SaveSettings) (doc : String) (job : Job)
    (hen : cfg.auto_save_generated = true) (hres : job.results ≠ [])
    (hm : ∀ p, env.mkdirFails p = false) :
    (save_job_images env cfg doc job).1
      = .ok (((List.range job.results.length).map
            (fun k => auto_save_path env cfg doc job k)).filter
            (fun pa => !env.saveFails pa)).length
    ∧ (save_job_images env cfg doc job).2.files
      = ((List.range job.results.length).map
            (fun k => auto_save_path env cfg doc job k)).filter
            (fun pa => !env.saveFails pa) := by
  rw [save_job_images]
  simp only [hen, hm, hres, Bool.not_true, Bool.false_eq_true, if_false, ite_false]
  rw [saveImagesLoop_spec]
  refine ⟨?_, ?_⟩ <;> simp [auto_save_path, Nat.zero_add, List.append_assoc]

/-- C7 witness: a three-image batch in which exactly the middle save fails
yields a success count of 2 and leaves the first and third files in place. -/
theorem C7_partial_failure_witness :
    (save_job_images envFailMid cfgW "" jobW3).1 = .ok 2
    ∧ (save_job_images envFailMid cfgW "" jobW3).2.files
      = [["base", "unsaved_document", "ImgGenerate",
          "img_name_20240102-030405-000_ImgGenerate_0.png"],
         ["base", "unsaved_document", "ImgGenerate",
          "img_name_20240102-030405-000_ImgGenerate_2.png"]] := by
  have h := C7_partial_failure envFailMid cfgW "" jobW3 rfl (by decide) (fun p => rfl)
  exact ⟨h.1.trans (congrArg Except.ok (by decide)), h.2.trans (by decide)⟩


/-- C8 counterexample: the history pass does not restrict itself to finished
jobs — `save_all_history_images` (auto_save.py line 145) filters only on a
non-empty result list and an admitted kind, so a still-queued job with one
result image is saved and counted. -/
theorem C8_counterexample :
    (save_all_history_images envNoFail cfgW "" [jobQueued]).1 = .ok 1
    ∧ jobQueued.state ≠ JobState.finished := by
  exact ⟨rfl, by decide⟩

/-- C8 (amended): `save_all_history_images` iterates exactly the history jobs
with a non-empty result list and kind diffusion, animation or upscaling —
with no check of the job state — applies the per-job save to each under its
own try, and returns the sum of the per-job success counts: a job whose save
raises (in the model: any of its own `mkdir` or image saves failing)
contributes zero and does not stop the loop.  Only the two top-level `mkdir`
calls are assumed to succeed, since their failures propagate out of the whole
call. -/
theorem C8_amended_history_sum (env : SaveEnv) (cfg : SaveSettings) (doc : String)
    (entries : List Job) (hen : cfg.auto_save_generated = true)
    (hm1 : env.mkdirFails cfg.auto_save_folder = false)
    (hm2 : env.mkdirFails (cfg.auto_save_folder
        ++ [if doc ≠ "" then path_stem doc else "unsaved_document"]) = false) :
    (save_all_history_images env cfg doc entries).1
      = .ok ((entries.filter
            (fun j => decide (j.results ≠ [] ∧ j.kind ∈ historyKinds))).map
          (fun j => match (save_job_images env cfg doc j).1 with
            | .ok n => n
            | .error _ => 0)).sum := by
  rw [save_all_history_images]
  simp only [hen, hm1, hm2, Bool.not_true, Bool.false_eq_true, if_false, ite_false]
  rw [historyLoop_fst]

/-- C8 amended witness: a three-job history in which the first job's own
type-folder `mkdir` raises — it contributes zero while the later queued and
finished jobs still save their 1 + 3 images. -/
theorem C8_amended_history_sum_witness :
    (save_all_history_images envFailUpscale cfgW "" [jobUpFail, jobQueued, jobW3]).1 = .ok 4
    ∧ (save_job_images envFailUpscale cfgW "" jobUpFail).1 = .error "mkdir failed" := by
  have h := C8_amended_history_sum envFailUpscale cfgW "" [jobUpFail, jobQueued, jobW3]
    rfl rfl (by decide)
  exact ⟨h.trans (congrArg Except.ok (by decide)), rfl⟩


theorem build_all_jobLong_shape :
    build_all_metadata jobLongPrompt 0 "ImgGenerate"
      = .cons "prompt" (.str (clean_metadata_value (String.mk (List.replicate 4100 'a'))))
          (.cons "negative_prompt" (.str (clean_metadata_value ""))
            (.cons "seed" (.int 0)
              (.cons "strength" (.dec 10 0)
                (.cons "style" (.str (clean_metadata_value ""))
                  (.cons "checkpoint" (.str (clean_metadata_value ""))
                    (.cons "sampler" (.str (clean_metadata_value ""))
                      (.cons "generation_type" (.str "ImgGenerate")
                        (.cons "job_kind" (.str "diffusion")
                          (.cons "timestamp"
                              (.str (fmtJobTimestamp ⟨2024, 1, 1, 0, 0, 0, 0⟩))
                            (.cons "batch_index" (.int 0)
                              (.cons "total_images" (.int 1) .nil))))))))))) := rfl

theorem dumps_jobLong_overflow :
    4000 < (dumps (.obj (build_all_metadata jobLongPrompt 0 "ImgGenerate"))).length := by
  rw [build_all_jobLong_shape]
  have h := dumps_obj_prompt_length_ge
    (clean_metadata_value (String.mk (List.replicate 4100 'a')))
    "negative_prompt" (.str (clean_metadata_value ""))
    (.cons "seed" (.int 0)
      (.cons "strength" (.dec 10 0)
        (.cons "style" (.str (clean_metadata_value ""))
          (.cons "checkpoint" (.str (clean_metadata_value ""))
            (.cons "sampler" (.str (clean_metadata_value ""))
              (.cons "generation_type" (.str "ImgGenerate")
                (.cons "job_kind" (.str "diffusion")
                  (.cons "timestamp" (.str (fmtJobTimestamp ⟨2024, 1, 1, 0, 0, 0, 0⟩))
                    (.cons "batch_index" (.int 0)
                      (.cons "total_images" (.int 1) .nil))))))))))
  have hlen : (escapeChars
        (clean_metadata_value (String.mk (List.replicate 4100 'a'))).data).length = 4100 := by
    rw [clean_replicate_a]
    have hd : (String.mk (List.replicate 4100 'a')).data = List.replicate 4100 'a' := rfl
    rw [hd, escapeChars_replicate_a, List.length_replicate]
  rw [hlen] at h
  omega

theorem essential_jobLong_shape :
    essential_metadata (build_all_metadata jobLongPrompt 0 "ImgGenerate")
      = .cons "prompt" (.str (clean_metadata_value (String.mk (List.replicate 4100 'a'))))
          (.cons "seed" (.int 0)
            (.cons "strength" (.dec 10 0)
              (.cons "generation_type" (.str "ImgGenerate")
                (.cons "timestamp" (.str (fmtJobTimestamp ⟨2024, 1, 1, 0, 0, 0, 0⟩))
                  (.cons "truncated" (.bool true) .nil))))) := rfl

theorem dumps_essential_jobLong_overflow :
    4000 < (dumps (.obj (essential_metadata
        (build_all_metadata jobLongPrompt 0 "ImgGenerate")))).length := by
  rw [essential_jobLong_shape]
  have h := dumps_obj_prompt_length_ge
    (clean_metadata_value (String.mk (List.replicate 4100 'a'))) "seed" (.int 0)
    (.cons "strength" (.dec 10 0)
      (.cons "generation_type" (.str "ImgGenerate")
        (.cons "timestamp" (.str (fmtJobTimestamp ⟨2024, 1, 1, 0, 0, 0, 0⟩))
          (.cons "truncated" (.bool true) .nil))))
  have hlen : (escapeChars
        (clean_metadata_value (String.mk (List.replicate 4100 'a'))).data).length = 4100 := by
    rw [clean_replicate_a]
    have hd : (String.mk (List.replicate 4100 'a')).data = List.replicate 4100 'a' := rfl
    rw [hd, escapeChars_replicate_a, List.length_replicate]
  rw [hlen] at h
  omega

/-- C2 counterexample: the encoded payload is not bounded by 4000 bytes.  The
overflow check measures the full record in characters and the substituted
essential record is never re-checked: a job whose cleaned prompt alone is 4100
characters overflows, is replaced by the essential subset — which still embeds
the whole prompt — and the emitted payload exceeds 4000 UTF-8 bytes. -/
theorem C2_counterexample :
    4000 < utf8Len (encode_metadata_json
        (build_all_metadata jobLongPrompt 0 "ImgGenerate")).data := by
  have henc : encode_metadata_json (build_all_metadata jobLongPrompt 0 "ImgGenerate")
      = dumps (.obj (essential_metadata
          (build_all_metadata jobLongPrompt 0 "ImgGenerate"))) := by
    simp only [encode_metadata_json]
    rw [if_pos dumps_jobLong_overflow]
  rw [henc]
  have h1 := dumps_essential_jobLong_overflow
  have h2 := length_le_utf8Len (dumps (.obj (essential_metadata
      (build_all_metadata jobLongPrompt 0 "ImgGenerate")))).data
  have h3 : (dumps (.obj (essential_metadata
        (build_all_metadata jobLongPrompt 0 "ImgGenerate")))).length
      = (dumps (.obj (essential_metadata
          (build_all_metadata jobLongPrompt 0 "ImgGenerate")))).data.length := rfl
  omega

/-- C2 (amended): the overflow check measures the serialized record in
characters (Python `len` of a `str`), not bytes; whenever the full record's
compact JSON exceeds 4000 characters the payload becomes the serialization of
the essential-subset record with exactly the keys prompt, seed, strength,
generation_type, timestamp and truncated=true — but that substitute is not
re-checked against the limit and may itself exceed it. -/
theorem C2_amended_truncation (all : JsonObj)
    (hover : 4000 < (dumps (.obj all)).length) :
    encode_metadata_json all
      = dumps (.obj (.cons "prompt" (all.get "prompt" (.str ""))
          (.cons "seed" (all.get "seed" (.int 0))
            (.cons "strength" (all.get "strength" (.dec 10 0))
              (.cons "generation_type" (all.get "generation_type" (.str ""))
                (.cons "timestamp" (all.get "timestamp" (.str ""))
                  (.cons "truncated" (.bool true) .nil))))))) := by
  simp only [encode_metadata_json]
  rw [if_pos hover]
  rfl

/-- C2 amended witness: the long-prompt record overflows, and its payload is
the essential-subset serialization. -/
theorem C2_amended_truncation_witness :
    encode_metadata_json (build_all_metadata jobLongPrompt 0 "ImgGenerate")
      = dumps (.obj (.cons "prompt"
            ((build_all_metadata jobLongPrompt 0 "ImgGenerate").get "prompt" (.str ""))
          (.cons "seed"
              ((build_all_metadata jobLongPrompt 0 "ImgGenerate").get "seed" (.int 0))
            (.cons "strength"
                ((build_all_metadata jobLongPrompt 0 "ImgGenerate").get "strength"
                  (.dec 10 0))
              (.cons "generation_type"
                  ((build_all_metadata jobLongPrompt 0 "ImgGenerate").get
                    "generation_type" (.str ""))
                (.cons "timestamp"
                    ((build_all_metadata jobLongPrompt 0 "ImgGenerate").get "timestamp"
                      (.str ""))
                  (.cons "truncated" (.bool true) .nil))))))) :=
  C2_amended_truncation _ dumps_jobLong_overflow


/-- C1 counterexample: the round-trip fails in the program.  The regex scan
captures the encoder's `tEXt` chunk together with the chunk's CRC and the
next chunk's length bytes, so the JSON parse fails and no canonical record
results — here for a one-key record well inside the at-most-4000-byte domain
the claim quantifies over, with a representative 8-byte trailer. -/
theorem C1_counterexample :
    utf8Len (dumpV (.obj (.cons "seed" (.int 7) .nil))) ≤ 4000
    ∧ metaLookup (extract_image_metadata ⟨fun _ => none⟩
        ⟨"f.png", "/p", 100, 8, 8, ".png", 32, "PNG"⟩
        ⟨[metadataChunkCapture (.cons "seed" (.int 7) .nil)
            [Char.ofNat 137, Char.ofNat 80, Char.ofNat 1, Char.ofNat 213,
             Char.ofNat 0, Char.ofNat 0, Char.ofNat 39, Char.ofNat 16]], [], []⟩)
        "AI_METADATA_JSON" = none :=
  ⟨by decide, rfl⟩

/-- C1 (amended): no round-trip — the decoder's regex capture for a `tEXt`
chunk runs from the chunk-type marker to the next `tEXt`/`IDAT`/`IEND`
marker, so for a PNG written by the encoder the captured text is the encoded
JSON followed by this chunk's 4-byte CRC and the next chunk's 4-byte length
field.  Whenever one of those trailing bytes is not whitespace (`strip`
removes only whitespace), `json.loads` fails, the decoder keeps the raw
captured text under `PNG_tEXt_metadata`, and the canonical `AI_METADATA_JSON`
entry is absent: decoding an encoded image does not return the original
record, even on the at-most-4000-byte domain. -/
theorem C1_amended_no_roundtrip (env : DecodeEnv) (info : FileInfo) (all : JsonObj)
    (junk : List Char) (hpng : pyLower info.suffix = ".png")
    (hsize : utf8Len (dumpV (.obj all)) ≤ 4000)
    (hex : ∃ c ∈ junk, isPyWs c = false) :
    metaLookup (extract_image_metadata env info
        ⟨[metadataChunkCapture all junk], [], []⟩) "AI_METADATA_JSON" = none
    ∧ metaLookup (extract_image_metadata env info
        ⟨[metadataChunkCapture all junk], [], []⟩) "PNG_tEXt_metadata"
      = some (.str (String.mk ((encode_metadata_json all).data ++ junk))) := by
  constructor
  · rw [lookup_ai_extract env info _ hpng]
    have hcr : canonicalRecord env ⟨[metadataChunkCapture all junk], [], []⟩
        = textChunkCandidate (metadataChunkCapture all junk) := by
      show lastSome [textChunkCandidate (metadataChunkCapture all junk)] = _
      cases h : textChunkCandidate (metadataChunkCapture all junk) <;> simp [lastSome, h]
    rw [hcr, textChunkCandidate_capture all junk hsize hex]
    rfl
  · rw [extract_eq_folds env info _ hpng]
    dsimp only [List.foldl]
    rw [processTextChunk_capture _ all junk hsize hex]
    exact metaLookup_metaSet_self _ _ _

/-- C1 amended witness: a concrete one-key record with a concrete
CRC-and-length trailer — the canonical entry is absent and the raw capture is
retained instead. -/
theorem C1_amended_no_roundtrip_witness :
    metaLookup (extract_image_metadata ⟨fun _ => none⟩
        ⟨"f.png", "/p", 100, 8, 8, ".png", 32, "PNG"⟩
        ⟨[metadataChunkCapture (.cons "seed" (.int 7) .nil)
            [Char.ofNat 31, Char.ofNat 139, Char.ofNat 8, Char.ofNat 0,
             Char.ofNat 0, Char.ofNat 0, Char.ofNat 39, Char.ofNat 16]], [], []⟩)
        "AI_METADATA_JSON" = none
    ∧ metaLookup (extract_image_metadata ⟨fun _ => none⟩
        ⟨"f.png", "/p", 100, 8, 8, ".png", 32, "PNG"⟩
        ⟨[metadataChunkCapture (.cons "seed" (.int 7) .nil)
            [Char.ofNat 31, Char.ofNat 139, Char.ofNat 8, Char.ofNat 0,
             Char.ofNat 0, Char.ofNat 0, Char.ofNat 39, Char.ofNat 16]], [], []⟩)
        "PNG_tEXt_metadata"
      = some (.str (String.mk ((encode_metadata_json (.cons "seed" (.int 7) .nil)).data
          ++ [Char.ofNat 31, Char.ofNat 139, Char.ofNat 8, Char.ofNat 0,
              Char.ofNat 0, Char.ofNat 0, Char.ofNat 39, Char.ofNat 16]))) :=
  C1_amended_no_roundtrip ⟨fun _ => none⟩ ⟨"f.png", "/p", 100, 8, 8, ".png", 32, "PNG"⟩
    (.cons "seed" (.int 7) .nil)
    [Char.ofNat 31, Char.ofNat 139, Char.ofNat 8, Char.ofNat 0,
     Char.ofNat 0, Char.ofNat 0, Char.ofNat 39, Char.ofNat 16]
    (by decide) (by decide) ⟨Char.ofNat 31, by decide, by decide⟩

/-- C4 counterexample: the first successfully parsed candidate does not win.
With two `tEXt` chunks under the legacy `metadata` keyword carrying the JSON
texts `1` and `2`, the first candidate parses successfully to 1, yet the
canonical entry ends up holding 2: every successful parse overwrites the
`AI_METADATA_JSON` dict entry, so the last one wins. -/
theorem C4_counterexample :
    textChunkCandidate ("metadata".data ++ '\x00' :: "1".data) = some (.int 1)
    ∧ metaLookup (extract_image_metadata ⟨fun _ => none⟩
        ⟨"f.png", "/p", 100, 8, 8, ".png", 32, "PNG"⟩
        ⟨["metadata".data ++ '\x00' :: "1".data,
          "metadata".data ++ '\x00' :: "2".data], [], []⟩) "AI_METADATA_JSON"
      = some (.json (.int 2)) :=
  ⟨rfl, rfl⟩

/-- C4 (amended): when several chunks carry a recognized keyword
(AI_METADATA_JSON, AI, AI_META or metadata), the canonical decoded record is
the LAST successfully parsed candidate in scan order — all `tEXt` chunks
scanned before all `zTXt` chunks — because each successful parse overwrites
the same dict entry; candidates that fail to parse leave only raw key/value
marker entries. -/
theorem C4_amended_last_wins (env : DecodeEnv) (info : FileInfo) (png : PngChunks)
    (hpng : pyLower info.suffix = ".png") :
    metaLookup (extract_image_metadata env info png) "AI_METADATA_JSON"
      = (lastSome (png.textChunks.map textChunkCandidate
          ++ png.ztxtChunks.map (ztxtChunkCandidate env))).map MetaVal.json := by
  rw [lookup_ai_extract env info png hpng]
  rfl

/-- C4 amended witness: a `tEXt` record followed by a `zTXt` record whose
decompression yields valid JSON — the `zTXt` one, scanned later, wins. -/
theorem C4_amended_last_wins_witness :
    metaLookup (extract_image_metadata ⟨fun _ => some "3".data⟩
        ⟨"f.png", "/p", 100, 8, 8, ".png", 32, "PNG"⟩
        ⟨["AI".data ++ '\x00' :: "1".data],
         ["AI".data ++ '\x00' :: '\x00' :: "z".data], []⟩) "AI_METADATA_JSON"
      = some (.json (.int 3)) :=
  (C4_amended_last_wins ⟨fun _ => some "3".data⟩
    ⟨"f.png", "/p", 100, 8, 8, ".png", 32, "PNG"⟩
    ⟨["AI".data ++ '\x00' :: "1".data],
     ["AI".data ++ '\x00' :: '\x00' :: "z".data], []⟩ rfl).trans rfl

/-- C5: graceful degradation — the extraction is a total function of its
inputs (every exception of the source is caught inside the per-chunk
branches), and when no recognized chunk parses successfully the result still
carries the generic `Dimensions` and `Format` properties while the canonical
generation record (`AI_METADATA_JSON`) is absent. -/
theorem C5_graceful_degradation (env : DecodeEnv) (info : FileInfo) (png : PngChunks)
    (hpng : pyLower info.suffix = ".png")
    (hnone : canonicalRecord env png = none) :
    metaLookup (extract_image_metadata env info png) "AI_METADATA_JSON" = none
    ∧ metaLookup (extract_image_metadata env info png) "Dimensions"
        = some (.str (natStr info.width ++ " x " ++ natStr info.height ++ " pixels"))
    ∧ metaLookup (extract_image_metadata env info png) "Format"
        = some (.str (if info.suffix ≠ "" then String.mk ((pyUpper info.suffix).data.drop 1)
            else "Inconnu")) := by
  refine ⟨?_, lookup_dims_extract env info png hpng, lookup_format_extract env info png hpng⟩
  rw [lookup_ai_extract env info png hpng, hnone]
  rfl

/-- C5 witness: a PNG with one unparseable `tEXt` chunk and one `zTXt` chunk
whose decompression fails still yields Dimensions and Format, and no canonical
record. -/
theorem C5_graceful_degradation_witness :
    metaLookup (extract_image_metadata ⟨fun _ => none⟩
        ⟨"f.png", "/p", 100, 8, 8, ".png", 32, "PNG"⟩
        ⟨["AI".data ++ '\x00' :: "notjson".data],
         ["metadata".data ++ '\x00' :: '\x00' :: "z".data], []⟩) "AI_METADATA_JSON" = none
    ∧ metaLookup (extract_image_metadata ⟨fun _ => none⟩
        ⟨"f.png", "/p", 100, 8, 8, ".png", 32, "PNG"⟩
        ⟨["AI".data ++ '\x00' :: "notjson".data],
         ["metadata".data ++ '\x00' :: '\x00' :: "z".data], []⟩) "Dimensions"
        = some (.str (natStr 8 ++ " x " ++ natStr 8 ++ " pixels"))
    ∧ metaLookup (extract_image_metadata ⟨fun _ => none⟩
        ⟨"f.png", "/p", 100, 8, 8, ".png", 32, "PNG"⟩
        ⟨["AI".data ++ '\x00' :: "notjson".data],
         ["metadata".data ++ '\x00' :: '\x00' :: "z".data], []⟩) "Format"
        = some (.str (if (".png" : String) ≠ ""
            then String.mk ((pyUpper ".png").data.drop 1) else "Inconnu")) :=
  C5_graceful_degradation ⟨fun _ => none⟩
    ⟨"f.png", "/p", 100, 8, 8, ".png", 32, "PNG"⟩
    ⟨["AI".data ++ '\x00' :: "notjson".data],
     ["metadata".data ++ '\x00' :: '\x00' :: "z".data], []⟩ rfl rfl

/-- C6: a `zTXt` chunk under a recognized keyword whose compression-method
byte is nonzero is recorded as an unsupported-compression marker for that
chunk — no exception, and not a silent skip. -/
theorem C6_unsupported_compression (env : DecodeEnv) (m : Meta) (kw : List Char)
    (hkw : ∀ c ∈ kw, c.toNat ≠ 0)
    (hrec : aiKeywords (String.mk kw) = true ∨ String.mk kw = "metadata")
    (c : Char) (hc : ¬c.toNat = 0) (data : List Char) :
    processZtxtChunk env m (kw ++ '\x00' :: c :: data)
      = metaSet m ("PNG_zTXt_" ++ String.mk kw)
          (.str ("Compression non supportée: " ++ natStr c.toNat)) := by
  have hsplit := splitFirstNull_key hkw (c :: data)
  rcases hrec with h | h
  · simp [processZtxtChunk, hsplit, h, hc]
  · have hai : aiKeywords (String.mk kw) = false := by rw [h]; decide
    simp [processZtxtChunk, hsplit, hai, h, hc]

/-- C6 witness: an `AI`-keyword `zTXt` chunk with method byte 1 leaves the
marker entry. -/
theorem C6_unsupported_compression_witness :
    processZtxtChunk ⟨fun _ => none⟩ [] ("AI".data ++ '\x00' :: Char.ofNat 1 :: [])
      = [("PNG_zTXt_" ++ String.mk "AI".data,
          .str ("Compression non supportée: " ++ natStr (Char.ofNat 1).toNat))] :=
  (C6_unsupported_compression ⟨fun _ => none⟩ [] "AI".data (by decide)
    (Or.inl (by decide)) (Char.ofNat 1) (by decide) []).trans rfl
